import Mathlib

/-!
Verification of the trading_platform event core against its specification.

Two components are embedded from the source:
* the moving-average crossover strategy state machine
  (src/strategies/mac.py, class MovingAverageCrossStrategy), and
* the event dispatch loop (src/core/backtest.py, class Backtest).

Prices and simple moving averages are modelled over the rationals; the source
computes with machine floats, so every theorem about a comparison of two
averages is stated with exact arithmetic. Wall-clock fields of signal events
(bar timestamp, generation timestamp) are never inspected by the code under
verification and are omitted from the embedded event.
-/

set_option maxRecDepth 4000

namespace TradingPlatform

attribute [local semireducible] Rat.add Rat.sub Rat.mul Rat.inv

/-! Strategy data model (src/strategies/mac.py) -/

/-- Per-instrument position label kept in the bought dictionary of the
strategy; initialised to OUT for every tracked symbol. -/
inductive Label
  | OUT
  | LONG
  | SHORT
deriving DecidableEq, Repr

/-- Direction carried by a signal event. -/
inductive Dir
  | LONG
  | SHORT
  | EXIT
deriving DecidableEq, Repr

/-- The payload of events/signal_event.py as used by mac.py:
SignalEvent(strategy_id, symbol, bar_date, datetime, direction, strength,
stop_loss, take_profit). The two wall-clock timestamp fields are never read
by the dispatch loop or the strategy and are omitted. -/
structure SignalEvent where
  strategy_id : Nat
  symbol : String
  sig_dir : Dir
  strength : ℚ
  stop_loss : Option ℚ
  take_profit : Option ℚ
deriving DecidableEq, Repr

/-- Constructor arguments of MovingAverageCrossStrategy. -/
structure MacConfig where
  short_window : Nat
  long_window : Nat
  stop_loss_pips : Option ℚ
  take_profit_pips : Option ℚ

/-- Python slice l[-n:]: the n most recent elements; for n = 0 the slice
l[-0:] is the whole list. -/
def takeLast (l : List ℚ) (n : Nat) : List ℚ :=
  if n = 0 then l else l.drop (l.length - n)

/-- np.mean over a list of closing prices (exact rational arithmetic). -/
def sma (l : List ℚ) : ℚ :=
  l.sum / (l.length : ℚ)

/-- Modelled from the spec: the data handler implementing
get_latest_bars_values is not under src/. Per the spec it gives read access
to the historical price series and yields the most recent N closing prices;
when fewer than N observations exist it yields all of them. -/
def get_latest_bars_values (history : List ℚ) (n : Nat) : List ℚ :=
  takeLast history n

/-- Modelled from the spec: the data handler implementing
get_latest_bar_value is not under src/; it reads the latest closing price of
the series. Total model: an empty series reads as 0 (the strategy only uses
the value on paths where the series is nonempty). -/
def get_latest_bar_value (history : List ℚ) : ℚ :=
  history.getLastD 0

/-- Modelled from the spec: stop-loss derivation (calculate_stop_loss_price
of the Strategy base class, not under src/) is a pure function of entry
price, direction and configured pip distance, and yields no value when the
pip distance is unset. -/
def calculate_stop_loss_price (price : ℚ) (pips : Option ℚ) (d : Dir) : Option ℚ :=
  pips.map (fun p =>
    match d with
    | Dir.LONG => price - p
    | Dir.SHORT => price + p
    | Dir.EXIT => price)

/-- Modelled from the spec: take-profit derivation (calculate_take_profit_price
of the Strategy base class, not under src/), dual to the stop-loss one. -/
def calculate_take_profit_price (price : ℚ) (pips : Option ℚ) (d : Dir) : Option ℚ :=
  pips.map (fun p =>
    match d with
    | Dir.LONG => price + p
    | Dir.SHORT => price - p
    | Dir.EXIT => price)

/-- mac.py lines 66-67: a flat (zero) net position reported by the portfolio
forces the cached label back to OUT. -/
def resyncLabel (pos : ℚ) (lbl : Label) : Label :=
  if pos = 0 then Label.OUT else lbl

/-- The entry signal built on the LONG/SHORT branches:
SignalEvent(1, symbol, bar_date, dt, sig_dir, 1.0, stop_loss, take_profit). -/
def entrySignal (cfg : MacConfig) (s : String) (price : ℚ) (d : Dir) : SignalEvent :=
  { strategy_id := 1
    symbol := s
    sig_dir := d
    strength := 1
    stop_loss := calculate_stop_loss_price price cfg.stop_loss_pips d
    take_profit := calculate_take_profit_price price cfg.take_profit_pips d }

/-- The exit signal built on the EXIT branches:
SignalEvent(1, symbol, bar_date, dt, sig_dir, 1.0) with no stop/take-profit. -/
def exitSignal (s : String) : SignalEvent :=
  { strategy_id := 1
    symbol := s
    sig_dir := Dir.EXIT
    strength := 1
    stop_loss := none
    take_profit := none }

/-- Body of the per-symbol loop of calculate_signals (mac.py lines 65-116):
resynchronise the label against the portfolio position, pull the most recent
long_window closing prices, and when any history exists run the crossover
branch chain. Returns the updated label and the signal put on the queue, if
any. -/
def calc_signal_symbol (cfg : MacConfig) (s : String) (pos : ℚ) (history : List ℚ)
    (lbl : Label) : Label × Option SignalEvent :=
  let lbl0 := resyncLabel pos lbl
  let bars := get_latest_bars_values history cfg.long_window
  let bar_price := get_latest_bar_value history
  if bars = [] then (lbl0, none)
  else
    let short_sma := sma (takeLast bars cfg.short_window)
    let long_sma := sma (takeLast bars cfg.long_window)
    if short_sma > long_sma ∧ lbl0 = Label.OUT then
      (Label.LONG, some (entrySignal cfg s bar_price Dir.LONG))
    else if short_sma < long_sma ∧ lbl0 = Label.OUT then
      (Label.SHORT, some (entrySignal cfg s bar_price Dir.SHORT))
    else if short_sma < long_sma ∧ lbl0 = Label.LONG then
      (Label.OUT, some (exitSignal s))
    else if short_sma > long_sma ∧ lbl0 = Label.SHORT then
      (Label.OUT, some (exitSignal s))
    else (lbl0, none)

/-- _calculate_initial_bought: every tracked symbol starts OUT. -/
def calculate_initial_bought : String → Label :=
  fun _ => Label.OUT

/-- The for-loop of calculate_signals over the symbol list: thread the bought
table through the per-symbol bodies and collect the emitted signals in
emission order. -/
def calc_signals_list (cfg : MacConfig) (positions : String → ℚ)
    (histories : String → List ℚ) :
    List String → (String → Label) → ((String → Label) × List SignalEvent)
  | [], bought => (bought, [])
  | s :: rest, bought =>
    let r := calc_signal_symbol cfg s (positions s) (histories s) (bought s)
    let next := calc_signals_list cfg positions histories rest (Function.update bought s r.1)
    (next.1, r.2.toList ++ next.2)

/-- calculate_signals (mac.py line 56): guarded on the MARKET event type,
then the per-symbol loop. -/
def calculate_signals (cfg : MacConfig) (etype : String) (positions : String → ℚ)
    (histories : String → List ℚ) (symbol_list : List String)
    (bought : String → Label) : (String → Label) × List SignalEvent :=
  if etype = "MARKET" then calc_signals_list cfg positions histories symbol_list bought
  else (bought, [])

/-- Repeated evaluations for a single instrument: each element of the input
list is one MARKET tick, given as the portfolio net position and the price
history visible at that tick. Collects the signals of the whole run. -/
def runSymbolTicks (cfg : MacConfig) (s : String) :
    List (ℚ × List ℚ) → Label → Label × List SignalEvent
  | [], lbl => (lbl, [])
  | tick :: rest, lbl =>
    let r := calc_signal_symbol cfg s tick.1 tick.2 lbl
    let next := runSymbolTicks cfg s rest r.1
    (next.1, r.2.toList ++ next.2)

/-- The crossover condition short_sma > long_sma, evaluated exactly as
calc_signal_symbol does, together with the requirement that some history is
available. -/
def smaGT (cfg : MacConfig) (history : List ℚ) : Prop :=
  get_latest_bars_values history cfg.long_window ≠ [] ∧
    sma (takeLast (get_latest_bars_values history cfg.long_window) cfg.short_window) >
      sma (takeLast (get_latest_bars_values history cfg.long_window) cfg.long_window)

/-- The crossover condition short_sma < long_sma with available history. -/
def smaLT (cfg : MacConfig) (history : List ℚ) : Prop :=
  get_latest_bars_values history cfg.long_window ≠ [] ∧
    sma (takeLast (get_latest_bars_values history cfg.long_window) cfg.short_window) <
      sma (takeLast (get_latest_bars_values history cfg.long_window) cfg.long_window)

instance (cfg : MacConfig) (history : List ℚ) : Decidable (smaGT cfg history) := by
  unfold smaGT
  infer_instance

instance (cfg : MacConfig) (history : List ℚ) : Decidable (smaLT cfg history) := by
  unfold smaLT
  infer_instance

/-! Dispatch loop data model (src/core/backtest.py) -/

/-- An event as seen by the dispatch loop: the source tests event.type
against string tags, so the kind is a string (any other string is an
unrecognized kind); the payload is never inspected by the core. -/
structure Event where
  type : String
  payload : Nat
deriving DecidableEq, Repr

/-- The collaborator operations invoked by _run_backtest, named as in the
source. -/
inductive CollabOp
  | update_bars
  | clear_limit_or_stop_orders
  | calculate_signals
  | update_stop_and_limit_orders
  | update_timeindex
  | update_signal
  | execute_order
  | update_fill
deriving DecidableEq, Repr

/-- Observable steps of a run, recorded in execution order: the progress
side effect, collaborator calls, queue pops and enqueues, the invocation of
the log_event hook, lines written to the logger, and logger open/close. -/
inductive TraceItem
  | progress
  | call (op : CollabOp)
  | pop (e : Option Event)
  | enq (e : Option Event)
  | logHook (iteration : Nat) (e : Option Event)
  | logWrite (line : String)
  | loggerOpen
  | loggerClose
deriving DecidableEq, Repr

/-- The external collaborators (data handler, strategy, execution handler,
portfolio), consumed through their narrow interfaces. Each operation acts on
an abstract collaborator state, may fail (the failure propagates out of the
run), and returns the events it put on the shared queue, in order. -/
structure Collabs (σ : Type) where
  continue_backtest : σ → Bool
  update_bars : σ → Except String (σ × List (Option Event))
  clear_limit_or_stop_orders : σ → Event → Except String (σ × List (Option Event))
  calculate_signals : σ → Event → Except String (σ × List (Option Event))
  update_stop_and_limit_orders : σ → Event → Except String (σ × List (Option Event))
  update_timeindex : σ → Event → Except String (σ × List (Option Event))
  update_signal : σ → Event → Except String (σ × List (Option Event))
  execute_order : σ → Event → Except String (σ × List (Option Event))
  update_fill : σ → Event → Except String (σ × List (Option Event))

/-- Engine-owned mutable state: the FIFO event queue (entries may be a None
sentinel) and the three run counters, initialised to zero in Backtest.__init__. -/
structure EngineState (σ : Type) where
  queue : List (Option Event)
  collab : σ
  signals : Nat
  orders : Nat
  fills : Nat
deriving DecidableEq

/-- Logger configuration: whether a logger object is present (logger is not
None) and the enabled log categories. -/
structure LogCfg where
  hasLogger : Bool
  enabled_log_types : List String
deriving DecidableEq, Repr

/-- Result of routing a single event: the new engine state, or a propagating
collaborator failure. -/
inductive EngRes (σ : Type)
  | ok (st : EngineState σ)
  | err (msg : String)
deriving DecidableEq

/-- Result of a (fuelled) drain or run: normal completion, a propagating
collaborator failure, or fuel exhaustion (the Python loops carry no bound;
fuel is an artifact of the embedding, and theorems speak about runs that
complete). -/
inductive RunRes (σ : Type)
  | ok (st : EngineState σ)
  | err (msg : String)
  | fuelOut
deriving DecidableEq

/-- Modelled from the spec: event.get_as_string of the event classes (not
under src/) renders the routed event to a log line. -/
def Event.get_as_string (e : Event) : String :=
  "Event type: " ++ e.type

/-- log_message (backtest.py lines 135-137): writes a line when a logger is
present and the message is nonempty. -/
def log_message (cfgL : LogCfg) (iteration : Nat) (message : String) : List TraceItem :=
  if cfgL.hasLogger ∧ message ≠ "" then
    [TraceItem.logWrite ("#" ++ toString iteration ++ " - " ++ message)]
  else []

/-- log_event (backtest.py lines 139-146): the hook itself runs for every
popped entry; it renders and writes only when a logger is present and the
events category is enabled. -/
def log_event (cfgL : LogCfg) (iteration : Nat) (e : Option Event) : List TraceItem :=
  TraceItem.logHook iteration e ::
    (if cfgL.hasLogger ∧ "events" ∈ cfgL.enabled_log_types then
      log_message cfgL iteration
        (match e with
         | some ev => ev.get_as_string
         | none => "Event: None")
    else [])

/-- Invoke one collaborator operation: record the call, and on success
append the events it produced to the tail of the FIFO queue, recording each
enqueue. -/
def callOp {σ : Type} (op : CollabOp) (f : σ → Except String (σ × List (Option Event)))
    (st : EngineState σ) : EngRes σ × List TraceItem :=
  match f st.collab with
  | Except.error m => (EngRes.err m, [TraceItem.call op])
  | Except.ok r =>
    (EngRes.ok { st with collab := r.1, queue := st.queue ++ r.2 },
      TraceItem.call op :: r.2.map TraceItem.enq)

/-- Sequence two routing steps; a failure in the first skips the second and
propagates. -/
def andThenE {σ : Type} (x : EngRes σ × List TraceItem)
    (f : EngineState σ → EngRes σ × List TraceItem) : EngRes σ × List TraceItem :=
  match x with
  | (EngRes.ok st, t) =>
    let y := f st
    (y.1, t ++ y.2)
  | (EngRes.err m, t) => (EngRes.err m, t)

/-- Route one popped queue entry by its kind (backtest.py lines 108-123):
a None sentinel and an unrecognized kind route nowhere; MARKET drives the
strategy, then the execution handler, then the portfolio; SIGNAL, ORDER and
FILL first bump their counter, then drive their collaborator. -/
def routeEvent {σ : Type} (C : Collabs σ) (st : EngineState σ) (e : Option Event) :
    EngRes σ × List TraceItem :=
  match e with
  | none => (EngRes.ok st, [])
  | some ev =>
    if ev.type = "CLOSE_PENDING_ORDERS" then
      callOp CollabOp.clear_limit_or_stop_orders (fun c => C.clear_limit_or_stop_orders c ev) st
    else if ev.type = "MARKET" then
      andThenE (andThenE
        (callOp CollabOp.calculate_signals (fun c => C.calculate_signals c ev) st)
        (callOp CollabOp.update_stop_and_limit_orders
          (fun c => C.update_stop_and_limit_orders c ev)))
        (callOp CollabOp.update_timeindex (fun c => C.update_timeindex c ev))
    else if ev.type = "SIGNAL" then
      callOp CollabOp.update_signal (fun c => C.update_signal c ev)
        { st with signals := st.signals + 1 }
    else if ev.type = "ORDER" then
      callOp CollabOp.execute_order (fun c => C.execute_order c ev)
        { st with orders := st.orders + 1 }
    else if ev.type = "FILL" then
      callOp CollabOp.update_fill (fun c => C.update_fill c ev)
        { st with fills := st.fills + 1 }
    else (EngRes.ok st, [])

/-- The inner while of _run_backtest (lines 102-126): pop the front entry
(queue.Empty breaks the drain), route it, then pass it to log_event; a
collaborator failure aborts the drain before the log_event call, as the
Python exception does. -/
def drain {σ : Type} (C : Collabs σ) (cfgL : LogCfg) (iteration : Nat) :
    Nat → EngineState σ → RunRes σ × List TraceItem
  | 0, _ => (RunRes.fuelOut, [])
  | fuel + 1, st =>
    match st.queue with
    | [] => (RunRes.ok st, [])
    | e :: rest =>
      match routeEvent C { st with queue := rest } e with
      | (EngRes.err m, t) => (RunRes.err m, TraceItem.pop e :: t)
      | (EngRes.ok st2, t) =>
        let r := drain C cfgL iteration fuel st2
        (r.1, TraceItem.pop e :: (t ++ log_event cfgL iteration e ++ r.2))

/-- The outer while of _run_backtest (lines 91-127): bump the iteration
counter, emit progress, advance the data source one unit when it has not
reported exhaustion (exhaustion breaks the loop), then drain the queue; the
heartbeat sleep is a pure delay and leaves no observable step. -/
def runLoop {σ : Type} (C : Collabs σ) (cfgL : LogCfg) (drainFuel : Nat) :
    Nat → Nat → EngineState σ → RunRes σ × List TraceItem
  | 0, _, _ => (RunRes.fuelOut, [])
  | fuel + 1, i, st =>
    if C.continue_backtest st.collab then
      match callOp CollabOp.update_bars C.update_bars st with
      | (EngRes.err m, t) => (RunRes.err m, TraceItem.progress :: t)
      | (EngRes.ok st1, t) =>
        match drain C cfgL (i + 1) drainFuel st1 with
        | (RunRes.ok st2, t2) =>
          let r := runLoop C cfgL drainFuel fuel (i + 1) st2
          (r.1, TraceItem.progress :: (t ++ t2 ++ r.2))
        | (other, t2) => (other, TraceItem.progress :: (t ++ t2))
    else (RunRes.ok st, [TraceItem.progress])

/-- _run_backtest (lines 80-133): open the logger when present, emit the
initial progress, run the loop from a fresh state (empty queue, zero
counters), and close the logger after normal loop exit; a propagating
failure leaves the logger unclosed, as the source has no try/finally. -/
def run_backtest {σ : Type} (C : Collabs σ) (cfgL : LogCfg)
    (tickFuel drainFuel : Nat) (s0 : σ) : RunRes σ × List TraceItem :=
  let st0 : EngineState σ :=
    { queue := [], collab := s0, signals := 0, orders := 0, fills := 0 }
  let opening := if cfgL.hasLogger then [TraceItem.loggerOpen] else []
  let r := runLoop C cfgL drainFuel tickFuel 0 st0
  match r.1 with
  | RunRes.ok st =>
    (RunRes.ok st,
      opening ++ TraceItem.progress :: r.2 ++
        (if cfgL.hasLogger then [TraceItem.loggerClose] else []))
  | other => (other, opening ++ TraceItem.progress :: r.2)

/-! Trace observations -/

/-- The queue entries popped in a trace, in order. -/
def popsOf (t : List TraceItem) : List (Option Event) :=
  t.filterMap (fun x =>
    match x with
    | TraceItem.pop e => some e
    | _ => none)

/-- The queue entries enqueued in a trace, in order. -/
def enqsOf (t : List TraceItem) : List (Option Event) :=
  t.filterMap (fun x =>
    match x with
    | TraceItem.enq e => some e
    | _ => none)

/-- The collaborator operations called in a trace, in order. -/
def callsOf (t : List TraceItem) : List CollabOp :=
  t.filterMap (fun x =>
    match x with
    | TraceItem.call op => some op
    | _ => none)

/-- The log_event hook invocations in a trace, in order. -/
def hooksOf (t : List TraceItem) : List (Nat × Option Event) :=
  t.filterMap (fun x =>
    match x with
    | TraceItem.logHook i e => some (i, e)
    | _ => none)

/-- How many entries of a pop list are events of the given kind. -/
def typedCount (ty : String) (l : List (Option Event)) : Nat :=
  l.countP (fun e =>
    match e with
    | some ev => ev.type == ty
    | none => false)

/-- Erase everything the logger configuration can influence: written lines
and the logger open/close steps. The hook invocation itself is kept, since
the source calls log_event unconditionally. -/
def stripLog (t : List TraceItem) : List TraceItem :=
  t.filter (fun x =>
    match x with
    | TraceItem.logWrite _ => false
    | TraceItem.loggerOpen => false
    | TraceItem.loggerClose => false
    | _ => true)

/-! Concrete instances used to evaluate the development -/

/-- The §8 scenario configuration: short window 3, long window 5, no
stop-loss or take-profit pips. -/
def macCfg35 : MacConfig :=
  { short_window := 3, long_window := 5, stop_loss_pips := none, take_profit_pips := none }

/-- Collaborators over a trivial state whose data source is exhausted from
the start and whose operations do nothing. -/
def trivCollabs : Collabs Unit :=
  { continue_backtest := fun _ => false
    update_bars := fun _ => Except.ok ((), [])
    clear_limit_or_stop_orders := fun _ _ => Except.ok ((), [])
    calculate_signals := fun _ _ => Except.ok ((), [])
    update_stop_and_limit_orders := fun _ _ => Except.ok ((), [])
    update_timeindex := fun _ _ => Except.ok ((), [])
    update_signal := fun _ _ => Except.ok ((), [])
    execute_order := fun _ _ => Except.ok ((), [])
    update_fill := fun _ _ => Except.ok ((), []) }

/-- Collaborators whose data source never reports exhaustion and whose
advance raises: the first tick fails. -/
def failCollabs : Collabs Unit :=
  { trivCollabs with
    continue_backtest := fun _ => true
    update_bars := fun _ => Except.error ("portfolio failure") }

/-- Collaborators over a Bool state (the continue flag): one tick enqueues a
MARKET event whose evaluation cascades a SIGNAL, an ORDER and a FILL, then
the data source is exhausted. -/
def cascadeCollabs : Collabs Bool :=
  { continue_backtest := fun b => b
    update_bars := fun _ => Except.ok (false, [some { type := "MARKET", payload := 0 }])
    clear_limit_or_stop_orders := fun _ _ => Except.ok (false, [])
    calculate_signals := fun _ _ => Except.ok (false, [some { type := "SIGNAL", payload := 1 }])
    update_stop_and_limit_orders := fun _ _ => Except.ok (false, [])
    update_timeindex := fun _ _ => Except.ok (false, [])
    update_signal := fun _ _ => Except.ok (false, [some { type := "ORDER", payload := 2 }])
    execute_order := fun _ _ => Except.ok (false, [some { type := "FILL", payload := 3 }])
    update_fill := fun _ _ => Except.ok (false, []) }

/-- A logger configuration with a logger present and event logging enabled. -/
def logAll : LogCfg := { hasLogger := true, enabled_log_types := ["events"] }

/-- A logger configuration with no logger at all. -/
def noLog : LogCfg := { hasLogger := false, enabled_log_types := [] }

/-- A fresh engine state over the trivial collaborator state. -/
def st0unit : EngineState Unit :=
  { queue := [], collab := (), signals := 0, orders := 0, fills := 0 }

/-! Strategy lemmas -/

theorem resyncLabel_of_ne (pos : ℚ) (lbl : Label) (h : pos ≠ 0) :
    resyncLabel pos lbl = lbl :=
  if_neg h

theorem resyncLabel_OUT (pos : ℚ) : resyncLabel pos Label.OUT = Label.OUT := by
  unfold resyncLabel
  split <;> rfl

theorem step_entry_long (cfg : MacConfig) (s : String) (pos : ℚ) (history : List ℚ)
    (lbl : Label) (hgt : smaGT cfg history) (hout : resyncLabel pos lbl = Label.OUT) :
    calc_signal_symbol cfg s pos history lbl =
      (Label.LONG, some (entrySignal cfg s (get_latest_bar_value history) Dir.LONG)) := by
  obtain ⟨hne, hcmp⟩ := hgt
  simp only [calc_signal_symbol]
  rw [if_neg hne, if_pos ⟨hcmp, hout⟩]

theorem step_entry_short (cfg : MacConfig) (s : String) (pos : ℚ) (history : List ℚ)
    (lbl : Label) (hlt : smaLT cfg history) (hout : resyncLabel pos lbl = Label.OUT) :
    calc_signal_symbol cfg s pos history lbl =
      (Label.SHORT, some (entrySignal cfg s (get_latest_bar_value history) Dir.SHORT)) := by
  obtain ⟨hne, hcmp⟩ := hlt
  simp only [calc_signal_symbol]
  rw [if_neg hne, if_neg (fun h => lt_asymm hcmp h.1), if_pos ⟨hcmp, hout⟩]

theorem step_exit_long (cfg : MacConfig) (s : String) (pos : ℚ) (history : List ℚ)
    (lbl : Label) (hl : resyncLabel pos lbl = Label.LONG) (hlt : smaLT cfg history) :
    calc_signal_symbol cfg s pos history lbl = (Label.OUT, some (exitSignal s)) := by
  obtain ⟨hne, hcmp⟩ := hlt
  simp only [calc_signal_symbol]
  rw [if_neg hne, if_neg (fun h => Label.noConfusion (hl.symm.trans h.2)),
    if_neg (fun h => Label.noConfusion (hl.symm.trans h.2)), if_pos ⟨hcmp, hl⟩]

theorem step_exit_short (cfg : MacConfig) (s : String) (pos : ℚ) (history : List ℚ)
    (lbl : Label) (hl : resyncLabel pos lbl = Label.SHORT) (hgt : smaGT cfg history) :
    calc_signal_symbol cfg s pos history lbl = (Label.OUT, some (exitSignal s)) := by
  obtain ⟨hne, hcmp⟩ := hgt
  simp only [calc_signal_symbol]
  rw [if_neg hne, if_neg (fun h => Label.noConfusion (hl.symm.trans h.2)),
    if_neg (fun h => Label.noConfusion (hl.symm.trans h.2)),
    if_neg (fun h => Label.noConfusion (hl.symm.trans h.2)), if_pos ⟨hcmp, hl⟩]

theorem step_hold_eq (cfg : MacConfig) (s : String) (pos : ℚ) (history : List ℚ)
    (lbl : Label) (hne : get_latest_bars_values history cfg.long_window ≠ [])
    (heq : sma (takeLast (get_latest_bars_values history cfg.long_window) cfg.short_window) =
      sma (takeLast (get_latest_bars_values history cfg.long_window) cfg.long_window)) :
    calc_signal_symbol cfg s pos history lbl = (resyncLabel pos lbl, none) := by
  simp only [calc_signal_symbol]
  rw [if_neg hne, heq]
  simp

theorem step_hold_long (cfg : MacConfig) (s : String) (pos : ℚ) (history : List ℚ)
    (lbl : Label) (hl : resyncLabel pos lbl = Label.LONG) (hnlt : ¬ smaLT cfg history) :
    calc_signal_symbol cfg s pos history lbl = (Label.LONG, none) := by
  simp only [calc_signal_symbol]
  by_cases hne : get_latest_bars_values history cfg.long_window = []
  · rw [if_pos hne, hl]
  · rw [if_neg hne, if_neg (fun h => Label.noConfusion (hl.symm.trans h.2)),
      if_neg (fun h => Label.noConfusion (hl.symm.trans h.2)),
      if_neg (fun h => hnlt ⟨hne, h.1⟩),
      if_neg (fun h => Label.noConfusion (hl.symm.trans h.2)), hl]

theorem step_hold_short (cfg : MacConfig) (s : String) (pos : ℚ) (history : List ℚ)
    (lbl : Label) (hl : resyncLabel pos lbl = Label.SHORT) (hngt : ¬ smaGT cfg history) :
    calc_signal_symbol cfg s pos history lbl = (Label.SHORT, none) := by
  simp only [calc_signal_symbol]
  by_cases hne : get_latest_bars_values history cfg.long_window = []
  · rw [if_pos hne, hl]
  · rw [if_neg hne, if_neg (fun h => Label.noConfusion (hl.symm.trans h.2)),
      if_neg (fun h => Label.noConfusion (hl.symm.trans h.2)),
      if_neg (fun h => Label.noConfusion (hl.symm.trans h.2)),
      if_neg (fun h => hngt ⟨hne, h.1⟩), hl]

theorem runSymbolTicks_hold_long (cfg : MacConfig) (s : String) (lastT : ℚ × List ℚ)
    (hl1 : lastT.1 ≠ 0) (hl2 : smaLT cfg lastT.2) :
    ∀ mids : List (ℚ × List ℚ), (∀ m ∈ mids, m.1 ≠ 0 ∧ ¬ smaLT cfg m.2) →
      runSymbolTicks cfg s (mids ++ [lastT]) Label.LONG = (Label.OUT, [exitSignal s])
  | [], _ => by
    have hstep := step_exit_long cfg s lastT.1 lastT.2 Label.LONG
      (resyncLabel_of_ne lastT.1 Label.LONG hl1) hl2
    simp [runSymbolTicks, hstep]
  | m :: mids, hm => by
    have h1 := hm m (List.mem_cons_self m mids)
    have hstep := step_hold_long cfg s m.1 m.2 Label.LONG
      (resyncLabel_of_ne m.1 Label.LONG h1.1) h1.2
    have ih := runSymbolTicks_hold_long cfg s lastT hl1 hl2 mids
      (fun x hx => hm x (List.mem_cons_of_mem m hx))
    simp [runSymbolTicks, hstep, ih]

theorem runSymbolTicks_entry_exit (cfg : MacConfig) (s : String)
    (first lastT : ℚ × List ℚ) (mids : List (ℚ × List ℚ))
    (h1 : smaGT cfg first.2)
    (hm : ∀ m ∈ mids, m.1 ≠ 0 ∧ ¬ smaLT cfg m.2)
    (hl1 : lastT.1 ≠ 0) (hl2 : smaLT cfg lastT.2) :
    ((runSymbolTicks cfg s (first :: (mids ++ [lastT])) Label.OUT).2).map SignalEvent.sig_dir =
      [Dir.LONG, Dir.EXIT] := by
  have hstep := step_entry_long cfg s first.1 first.2 Label.OUT h1 (resyncLabel_OUT first.1)
  have hrest := runSymbolTicks_hold_long cfg s lastT hl1 hl2 mids hm
  simp [runSymbolTicks, hstep, hrest, entrySignal, exitSignal]

theorem calc_signal_symbol_symbol_eq (cfg : MacConfig) (s : String) (pos : ℚ)
    (history : List ℚ) (lbl : Label) (e : SignalEvent)
    (h : (calc_signal_symbol cfg s pos history lbl).2 = some e) : e.symbol = s := by
  simp only [calc_signal_symbol] at h
  split_ifs at h <;> simp_all [entrySignal, exitSignal]
  · exact h.symm ▸ rfl
  · exact h.symm ▸ rfl
  · exact h.symm ▸ rfl
  · exact h.symm ▸ rfl

theorem calc_signals_list_symbol_mem (cfg : MacConfig) (positions : String → ℚ)
    (histories : String → List ℚ) :
    ∀ (syms : List String) (bought : String → Label) (e : SignalEvent),
      e ∈ (calc_signals_list cfg positions histories syms bought).2 → e.symbol ∈ syms
  | [], _, _, h => absurd h (List.not_mem_nil _)
  | s :: rest, bought, e, h => by
    simp only [calc_signals_list, List.mem_append] at h
    rcases h with h | h
    · have : (calc_signal_symbol cfg s (positions s) (histories s) (bought s)).2 = some e := by
        cases hx : (calc_signal_symbol cfg s (positions s) (histories s) (bought s)).2 with
        | none => rw [hx] at h; simp [Option.toList] at h
        | some v => rw [hx] at h; simp [Option.toList] at h; rw [h]
      have := calc_signal_symbol_symbol_eq cfg s (positions s) (histories s) (bought s) e this
      simp [this]
    · have := calc_signals_list_symbol_mem cfg positions histories rest
        (Function.update bought s
          (calc_signal_symbol cfg s (positions s) (histories s) (bought s)).1) e h
      simp [this]

theorem calc_signals_list_countP_le (cfg : MacConfig) (positions : String → ℚ)
    (histories : String → List ℚ) (s : String) :
    ∀ (syms : List String) (bought : String → Label), syms.Nodup →
      ((calc_signals_list cfg positions histories syms bought).2.countP
        (fun e => e.symbol == s)) ≤ 1
  | [], _, _ => by simp [calc_signals_list]
  | t :: rest, bought, hnd => by
    have hnd1 : rest.Nodup := hnd.of_cons
    have htr : t ∉ rest := (List.nodup_cons.mp hnd).1
    simp only [calc_signals_list, List.countP_append]
    by_cases hst : t = s
    · subst hst
      have hz : ((calc_signals_list cfg positions histories rest
          (Function.update bought t
            (calc_signal_symbol cfg t (positions t) (histories t) (bought t)).1)).2.countP
            (fun e => e.symbol == t)) = 0 := by
        rw [List.countP_eq_zero]
        intro e he
        have hmem := calc_signals_list_symbol_mem cfg positions histories rest _ e he
        have : e.symbol ≠ t := fun hc => htr (hc ▸ hmem)
        simpa using this
      rw [hz]
      cases hx : (calc_signal_symbol cfg t (positions t) (histories t) (bought t)).2 with
      | none => simp [hx]
      | some v =>
        have hv : v.symbol = t := calc_signal_symbol_symbol_eq cfg t _ _ _ v hx
        simp [hx, Option.toList, List.countP_cons, hv]
    · have h0 : ((calc_signal_symbol cfg t (positions t) (histories t)
          (bought t)).2.toList.countP (fun e => e.symbol == s)) = 0 := by
        rw [List.countP_eq_zero]
        intro e he
        have : (calc_signal_symbol cfg t (positions t) (histories t) (bought t)).2 = some e := by
          cases hx : (calc_signal_symbol cfg t (positions t) (histories t) (bought t)).2 with
          | none => rw [hx] at he; simp [Option.toList] at he
          | some v => rw [hx] at he; simp [Option.toList] at he; rw [he]
        have he2 := calc_signal_symbol_symbol_eq cfg t (positions t) (histories t) (bought t) e this
        simp [he2, hst]
      rw [h0]
      simpa using calc_signals_list_countP_le cfg positions histories s rest
        (Function.update bought t
          (calc_signal_symbol cfg t (positions t) (histories t) (bought t)).1) hnd1

/-! Engine trace lemmas -/

theorem popsOf_append (a b : List TraceItem) : popsOf (a ++ b) = popsOf a ++ popsOf b := by
  simp [popsOf]

theorem enqsOf_append (a b : List TraceItem) : enqsOf (a ++ b) = enqsOf a ++ enqsOf b := by
  simp [enqsOf]

theorem callsOf_append (a b : List TraceItem) : callsOf (a ++ b) = callsOf a ++ callsOf b := by
  simp [callsOf]

theorem hooksOf_append (a b : List TraceItem) : hooksOf (a ++ b) = hooksOf a ++ hooksOf b := by
  simp [hooksOf]

theorem stripLog_append (a b : List TraceItem) : stripLog (a ++ b) = stripLog a ++ stripLog b := by
  simp [stripLog]

theorem popsOf_map_enq (l : List (Option Event)) : popsOf (l.map TraceItem.enq) = [] := by
  induction l with
  | nil => rfl
  | cons e l ih => simp [popsOf, List.filterMap_cons, ih]

theorem enqsOf_map_enq (l : List (Option Event)) : enqsOf (l.map TraceItem.enq) = l := by
  induction l with
  | nil => rfl
  | cons e l ih => simpa [enqsOf, List.filterMap_cons] using ih

theorem callsOf_map_enq (l : List (Option Event)) : callsOf (l.map TraceItem.enq) = [] := by
  induction l with
  | nil => rfl
  | cons e l ih => simp [callsOf, List.filterMap_cons, ih]

theorem hooksOf_map_enq (l : List (Option Event)) : hooksOf (l.map TraceItem.enq) = [] := by
  induction l with
  | nil => rfl
  | cons e l ih => simp [hooksOf, List.filterMap_cons, ih]

theorem popsOf_cons_call (op : CollabOp) (t : List TraceItem) :
    popsOf (TraceItem.call op :: t) = popsOf t := by
  simp [popsOf, List.filterMap_cons]

theorem popsOf_cons_pop (e : Option Event) (t : List TraceItem) :
    popsOf (TraceItem.pop e :: t) = e :: popsOf t := by
  simp [popsOf, List.filterMap_cons]

theorem popsOf_cons_progress (t : List TraceItem) :
    popsOf (TraceItem.progress :: t) = popsOf t := by
  simp [popsOf, List.filterMap_cons]

theorem enqsOf_cons_call (op : CollabOp) (t : List TraceItem) :
    enqsOf (TraceItem.call op :: t) = enqsOf t := by
  simp [enqsOf, List.filterMap_cons]

theorem enqsOf_cons_pop (e : Option Event) (t : List TraceItem) :
    enqsOf (TraceItem.pop e :: t) = enqsOf t := by
  simp [enqsOf, List.filterMap_cons]

theorem enqsOf_cons_progress (t : List TraceItem) :
    enqsOf (TraceItem.progress :: t) = enqsOf t := by
  simp [enqsOf, List.filterMap_cons]

theorem callsOf_cons_call (op : CollabOp) (t : List TraceItem) :
    callsOf (TraceItem.call op :: t) = op :: callsOf t := by
  simp [callsOf, List.filterMap_cons]

theorem callsOf_cons_pop (e : Option Event) (t : List TraceItem) :
    callsOf (TraceItem.pop e :: t) = callsOf t := by
  simp [callsOf, List.filterMap_cons]

theorem hooksOf_cons_call (op : CollabOp) (t : List TraceItem) :
    hooksOf (TraceItem.call op :: t) = hooksOf t := by
  simp [hooksOf, List.filterMap_cons]

theorem hooksOf_cons_pop (e : Option Event) (t : List TraceItem) :
    hooksOf (TraceItem.pop e :: t) = hooksOf t := by
  simp [hooksOf, List.filterMap_cons]

theorem hooksOf_cons_progress (t : List TraceItem) :
    hooksOf (TraceItem.progress :: t) = hooksOf t := by
  simp [hooksOf, List.filterMap_cons]

theorem not_mem_map_enq (x : TraceItem) (l : List (Option Event))
    (hx : ∀ e : Option Event, x ≠ TraceItem.enq e) : x ∉ l.map TraceItem.enq := by
  intro hmem
  obtain ⟨e, _, he⟩ := List.mem_map.mp hmem
  exact hx e he.symm

theorem log_event_pops (cfgL : LogCfg) (i : Nat) (e : Option Event) :
    popsOf (log_event cfgL i e) = [] := by
  unfold log_event log_message
  split_ifs <;> simp [popsOf]

theorem log_event_enqs (cfgL : LogCfg) (i : Nat) (e : Option Event) :
    enqsOf (log_event cfgL i e) = [] := by
  unfold log_event log_message
  split_ifs <;> simp [enqsOf]

theorem log_event_calls (cfgL : LogCfg) (i : Nat) (e : Option Event) :
    callsOf (log_event cfgL i e) = [] := by
  unfold log_event log_message
  split_ifs <;> simp [callsOf]

theorem log_event_hooks (cfgL : LogCfg) (i : Nat) (e : Option Event) :
    hooksOf (log_event cfgL i e) = [(i, e)] := by
  unfold log_event log_message
  split_ifs <;> simp [hooksOf]

theorem log_event_strip (cfgL : LogCfg) (i : Nat) (e : Option Event) :
    stripLog (log_event cfgL i e) = [TraceItem.logHook i e] := by
  unfold log_event log_message
  split_ifs <;> simp [stripLog]

theorem log_event_no_open (cfgL : LogCfg) (i : Nat) (e : Option Event) :
    TraceItem.loggerOpen ∉ log_event cfgL i e := by
  unfold log_event log_message
  split_ifs <;> simp

theorem log_event_no_close (cfgL : LogCfg) (i : Nat) (e : Option Event) :
    TraceItem.loggerClose ∉ log_event cfgL i e := by
  unfold log_event log_message
  split_ifs <;> simp

theorem log_event_no_advance (cfgL : LogCfg) (i : Nat) (e : Option Event) :
    TraceItem.call CollabOp.update_bars ∉ log_event cfgL i e := by
  unfold log_event log_message
  split_ifs <;> simp

theorem callOp_ok {σ : Type} (op : CollabOp)
    (f : σ → Except String (σ × List (Option Event)))
    (st st2 : EngineState σ) (t : List TraceItem)
    (h : callOp op f st = (EngRes.ok st2, t)) :
    st2.queue = st.queue ++ enqsOf t ∧
    st2.signals = st.signals ∧ st2.orders = st.orders ∧ st2.fills = st.fills ∧
    popsOf t = [] ∧ hooksOf t = [] ∧ callsOf t = [op] ∧
    TraceItem.loggerOpen ∉ t ∧ TraceItem.loggerClose ∉ t ∧
    (TraceItem.call CollabOp.update_bars ∈ t → op = CollabOp.update_bars) := by
  unfold callOp at h
  cases hf : f st.collab with
  | error m =>
    rw [hf] at h
    simp at h
  | ok r =>
    rw [hf] at h
    simp only [Prod.mk.injEq, EngRes.ok.injEq] at h
    obtain ⟨h1, h2⟩ := h
    subst h2
    subst h1
    refine ⟨?_, rfl, rfl, rfl, ?_, ?_, ?_, ?_, ?_, ?_⟩
    · simp [enqsOf_cons_call, enqsOf_map_enq]
    · simp [popsOf_cons_call, popsOf_map_enq]
    · simp [hooksOf_cons_call, hooksOf_map_enq]
    · simp [callsOf_cons_call, callsOf_map_enq]
    · exact fun hmem => by
        rcases List.mem_cons.mp hmem with hc | hc
        · cases hc
        · exact absurd hc (not_mem_map_enq _ _ (fun e h => TraceItem.noConfusion h))
    · exact fun hmem => by
        rcases List.mem_cons.mp hmem with hc | hc
        · cases hc
        · exact absurd hc (not_mem_map_enq _ _ (fun e h => TraceItem.noConfusion h))
    · intro hmem
      rcases List.mem_cons.mp hmem with hc | hc
      · exact (TraceItem.call.injEq _ _).mp hc.symm ▸ rfl
      · exact absurd hc (not_mem_map_enq _ _ (fun e h => TraceItem.noConfusion h))

theorem typedCount_none (ty : String) : typedCount ty [(none : Option Event)] = 0 := by
  simp [typedCount]

theorem typedCount_some_eq (ty : String) (ev : Event) (h : ev.type = ty) :
    typedCount ty [some ev] = 1 := by
  simp [typedCount, List.countP_cons, h]

theorem typedCount_some_ne (ty : String) (ev : Event) (h : ev.type ≠ ty) :
    typedCount ty [some ev] = 0 := by
  simp [typedCount, List.countP_cons, h]

theorem routeEvent_ok {σ : Type} (C : Collabs σ) (st st2 : EngineState σ)
    (e : Option Event) (t : List TraceItem)
    (h : routeEvent C st e = (EngRes.ok st2, t)) :
    st2.queue = st.queue ++ enqsOf t ∧
    st2.signals = st.signals + typedCount ("SIGNAL") [e] ∧
    st2.orders = st.orders + typedCount ("ORDER") [e] ∧
    st2.fills = st.fills + typedCount ("FILL") [e] ∧
    popsOf t = [] ∧ hooksOf t = [] ∧
    TraceItem.loggerOpen ∉ t ∧ TraceItem.loggerClose ∉ t ∧
    TraceItem.call CollabOp.update_bars ∉ t := by
  cases e with
  | none =>
    unfold routeEvent at h
    simp only [Prod.mk.injEq, EngRes.ok.injEq] at h
    obtain ⟨h1, h2⟩ := h
    subst h2
    subst h1
    simp [typedCount, popsOf, enqsOf, hooksOf]
  | some ev =>
    unfold routeEvent at h
    dsimp only at h
    split_ifs at h with h1 h2 h3 h4 h5
    · -- CLOSE_PENDING_ORDERS
      obtain ⟨hq, hs, ho, hf, hp, hh, hcalls, hno, hnc, hub⟩ := callOp_ok _ _ _ _ _ h
      refine ⟨hq, ?_, ?_, ?_, hp, hh, hno, hnc, fun hm => ?_⟩
      · simp [hs, typedCount_some_ne ("SIGNAL") ev (by rw [h1]; decide)]
      · simp [ho, typedCount_some_ne ("ORDER") ev (by rw [h1]; decide)]
      · simp [hf, typedCount_some_ne ("FILL") ev (by rw [h1]; decide)]
      · exact CollabOp.noConfusion (hub hm)
    · -- MARKET: three sequenced collaborator calls
      rcases hc1 : callOp CollabOp.calculate_signals (fun c => C.calculate_signals c ev) st
        with ⟨r1, t1⟩
      rw [hc1] at h
      cases r1 with
      | err m => simp [andThenE] at h
      | ok stA =>
        simp only [andThenE] at h
        rcases hc2 : callOp CollabOp.update_stop_and_limit_orders
          (fun c => C.update_stop_and_limit_orders c ev) stA with ⟨r2, t2⟩
        rw [hc2] at h
        cases r2 with
        | err m => simp at h
        | ok stB =>
          simp only at h
          rcases hc3 : callOp CollabOp.update_timeindex
            (fun c => C.update_timeindex c ev) stB with ⟨r3, t3⟩
          rw [hc3] at h
          cases r3 with
          | err m => simp at h
          | ok stC =>
            simp only [Prod.mk.injEq, EngRes.ok.injEq] at h
            obtain ⟨hst, ht⟩ := h
            subst hst
            subst ht
            obtain ⟨hq1, hs1, ho1, hf1, hp1, hh1, hcalls1, hno1, hnc1, hub1⟩ :=
              callOp_ok _ _ _ _ _ hc1
            obtain ⟨hq2, hs2, ho2, hf2, hp2, hh2, hcalls2, hno2, hnc2, hub2⟩ :=
              callOp_ok _ _ _ _ _ hc2
            obtain ⟨hq3, hs3, ho3, hf3, hp3, hh3, hcalls3, hno3, hnc3, hub3⟩ :=
              callOp_ok _ _ _ _ _ hc3
            refine ⟨?_, ?_, ?_, ?_, ?_, ?_, ?_, ?_, ?_⟩
            · rw [hq3, hq2, hq1]
              simp [enqsOf_append, List.append_assoc]
            · simp [hs3, hs2, hs1, typedCount_some_ne ("SIGNAL") ev (by rw [h2]; decide)]
            · simp [ho3, ho2, ho1, typedCount_some_ne ("ORDER") ev (by rw [h2]; decide)]
            · simp [hf3, hf2, hf1, typedCount_some_ne ("FILL") ev (by rw [h2]; decide)]
            · simp [popsOf_append, hp1, hp2, hp3]
            · simp [hooksOf_append, hh1, hh2, hh3]
            · simp only [List.append_assoc, List.mem_append]
              rintro (hm | hm | hm)
              exacts [hno1 hm, hno2 hm, hno3 hm]
            · simp only [List.append_assoc, List.mem_append]
              rintro (hm | hm | hm)
              exacts [hnc1 hm, hnc2 hm, hnc3 hm]
            · simp only [List.append_assoc, List.mem_append]
              rintro (hm | hm | hm)
              exacts [CollabOp.noConfusion (hub1 hm), CollabOp.noConfusion (hub2 hm),
                CollabOp.noConfusion (hub3 hm)]
    · -- SIGNAL
      obtain ⟨hq, hs, ho, hf, hp, hh, hcalls, hno, hnc, hub⟩ := callOp_ok _ _ _ _ _ h
      refine ⟨hq, ?_, ?_, ?_, hp, hh, hno, hnc, fun hm => ?_⟩
      · simp [hs, typedCount_some_eq ("SIGNAL") ev h3]
      · simp [ho, typedCount_some_ne ("ORDER") ev (by rw [h3]; decide)]
      · simp [hf, typedCount_some_ne ("FILL") ev (by rw [h3]; decide)]
      · exact CollabOp.noConfusion (hub hm)
    · -- ORDER
      obtain ⟨hq, hs, ho, hf, hp, hh, hcalls, hno, hnc, hub⟩ := callOp_ok _ _ _ _ _ h
      refine ⟨hq, ?_, ?_, ?_, hp, hh, hno, hnc, fun hm => ?_⟩
      · simp [hs, typedCount_some_ne ("SIGNAL") ev (by rw [h4]; decide)]
      · simp [ho, typedCount_some_eq ("ORDER") ev h4]
      · simp [hf, typedCount_some_ne ("FILL") ev (by rw [h4]; decide)]
      · exact CollabOp.noConfusion (hub hm)
    · -- FILL
      obtain ⟨hq, hs, ho, hf, hp, hh, hcalls, hno, hnc, hub⟩ := callOp_ok _ _ _ _ _ h
      refine ⟨hq, ?_, ?_, ?_, hp, hh, hno, hnc, fun hm => ?_⟩
      · simp [hs, typedCount_some_ne ("SIGNAL") ev (by rw [h5]; decide)]
      · simp [ho, typedCount_some_ne ("ORDER") ev (by rw [h5]; decide)]
      · simp [hf, typedCount_some_eq ("FILL") ev h5]
      · exact CollabOp.noConfusion (hub hm)
    · -- unrecognized kind
      simp only [Prod.mk.injEq, EngRes.ok.injEq] at h
      obtain ⟨hst, ht⟩ := h
      subst ht
      subst hst
      refine ⟨by simp [enqsOf], ?_, ?_, ?_, by simp [popsOf], by simp [hooksOf],
        by simp, by simp, by simp⟩
      · simp [typedCount_some_ne ("SIGNAL") ev h3]
      · simp [typedCount_some_ne ("ORDER") ev h4]
      · simp [typedCount_some_ne ("FILL") ev h5]

theorem typedCount_cons (ty : String) (e : Option Event) (l : List (Option Event)) :
    typedCount ty (e :: l) = typedCount ty [e] + typedCount ty l := by
  simp [typedCount, List.countP_cons, Nat.add_comm]

theorem drain_ok {σ : Type} (C : Collabs σ) (cfgL : LogCfg) (iteration : Nat) :
    ∀ (fuel : Nat) (st st2 : EngineState σ) (t : List TraceItem),
      drain C cfgL iteration fuel st = (RunRes.ok st2, t) →
      st2.queue = [] ∧
      popsOf t = st.queue ++ enqsOf t ∧
      hooksOf t = (popsOf t).map (fun e => (iteration, e)) ∧
      st2.signals = st.signals + typedCount ("SIGNAL") (popsOf t) ∧
      st2.orders = st.orders + typedCount ("ORDER") (popsOf t) ∧
      st2.fills = st.fills + typedCount ("FILL") (popsOf t) ∧
      TraceItem.loggerOpen ∉ t ∧ TraceItem.loggerClose ∉ t ∧
      TraceItem.call CollabOp.update_bars ∉ t
  | 0, st, st2, t, h => by
    simp [drain] at h
  | fuel + 1, st, st2, t, h => by
    unfold drain at h
    rcases hq : st.queue with _ | ⟨e, rest⟩
    · rw [hq] at h
      simp only [Prod.mk.injEq, RunRes.ok.injEq] at h
      obtain ⟨h1, h2⟩ := h
      subst h1
      subst h2
      simp [hq, popsOf, enqsOf, hooksOf, typedCount]
    · rw [hq] at h
      dsimp only at h
      rcases hr : routeEvent C { st with queue := rest } e with ⟨r1, t1⟩
      rw [hr] at h
      cases r1 with
      | err m => simp at h
      | ok stA =>
        dsimp only at h
        rcases hd : drain C cfgL iteration fuel stA with ⟨r2, t2⟩
        rw [hd] at h
        dsimp only at h
        simp only [Prod.mk.injEq] at h
        obtain ⟨h1, h2⟩ := h
        cases r2 with
        | err m => simp at h1
        | fuelOut => simp at h1
        | ok stB =>
          simp only [RunRes.ok.injEq] at h1
          subst h1
          subst h2
          obtain ⟨hqA, hsA, hoA, hfA, hpA, hhA, hnoA, hncA, hubA⟩ :=
            routeEvent_ok C { st with queue := rest } stA e t1 hr
          obtain ⟨hq2, hfifo, hhooks, hsig, hord, hfill, hno2, hnc2, hub2⟩ :=
            drain_ok C cfgL iteration fuel stA stB t2 hd
          have hpops : popsOf (TraceItem.pop e :: (t1 ++ log_event cfgL iteration e ++ t2)) =
              e :: popsOf t2 := by
            rw [popsOf_cons_pop]
            simp [popsOf_append, hpA, log_event_pops]
          have henqs : enqsOf (TraceItem.pop e :: (t1 ++ log_event cfgL iteration e ++ t2)) =
              enqsOf t1 ++ enqsOf t2 := by
            rw [enqsOf_cons_pop]
            simp [enqsOf_append, log_event_enqs]
          refine ⟨hq2, ?_, ?_, ?_, ?_, ?_, ?_, ?_, ?_⟩
          · rw [hpops, henqs, hfifo, hqA]
            simp [List.append_assoc]
          · rw [hpops]
            simp only [List.map_cons]
            rw [← hhooks]
            simp [hooksOf_cons_pop, hooksOf_append, hhA, log_event_hooks]
          · rw [hpops, typedCount_cons, hsig, hsA]
            dsimp only
            omega
          · rw [hpops, typedCount_cons, hord, hoA]
            dsimp only
            omega
          · rw [hpops, typedCount_cons, hfill, hfA]
            dsimp only
            omega
          · intro hm
            rcases List.mem_cons.mp hm with hc | hc
            · cases hc
            rcases List.mem_append.mp hc with hc2 | hc2
            · rcases List.mem_append.mp hc2 with hc3 | hc3
              · exact hnoA hc3
              · exact log_event_no_open cfgL iteration e hc3
            · exact hno2 hc2
          · intro hm
            rcases List.mem_cons.mp hm with hc | hc
            · cases hc
            rcases List.mem_append.mp hc with hc2 | hc2
            · rcases List.mem_append.mp hc2 with hc3 | hc3
              · exact hncA hc3
              · exact log_event_no_close cfgL iteration e hc3
            · exact hnc2 hc2
          · intro hm
            rcases List.mem_cons.mp hm with hc | hc
            · cases hc
            rcases List.mem_append.mp hc with hc2 | hc2
            · rcases List.mem_append.mp hc2 with hc3 | hc3
              · exact hubA hc3
              · exact log_event_no_advance cfgL iteration e hc3
            · exact hub2 hc2

theorem typedCount_append (ty : String) (a b : List (Option Event)) :
    typedCount ty (a ++ b) = typedCount ty a + typedCount ty b := by
  simp [typedCount, List.countP_append]

theorem split_around (a : TraceItem) :
    ∀ (l1 l2 p q : List TraceItem), l1 ++ l2 = p ++ a :: q → a ∉ l1 →
      ∃ p2, p = l1 ++ p2 ∧ l2 = p2 ++ a :: q
  | [], l2, p, q, h, _ => ⟨p, rfl, h⟩
  | x :: l1, l2, p, q, h, hna => by
    cases p with
    | nil =>
      simp only [List.cons_append, List.nil_append, List.cons.injEq] at h
      obtain ⟨h1, _⟩ := h
      exact absurd (h1 ▸ List.mem_cons_self x l1) hna
    | cons y p =>
      simp only [List.cons_append, List.cons.injEq] at h
      obtain ⟨hxy, hrest⟩ := h
      obtain ⟨p2, hp, hl⟩ := split_around a l1 l2 p q hrest
        (fun hm => hna (List.mem_cons_of_mem x hm))
      exact ⟨p2, by rw [List.cons_append, ← hxy, hp], hl⟩

theorem callOp_shape {σ : Type} (op : CollabOp)
    (f : σ → Except String (σ × List (Option Event)))
    (st : EngineState σ) (r : EngRes σ) (t : List TraceItem)
    (h : callOp op f st = (r, t)) :
    ∃ l, t = TraceItem.call op :: List.map TraceItem.enq l := by
  unfold callOp at h
  cases hf : f st.collab with
  | error m =>
    rw [hf] at h
    exact ⟨[], (congrArg Prod.snd h).symm⟩
  | ok rr =>
    rw [hf] at h
    exact ⟨rr.2, (congrArg Prod.snd h).symm⟩

theorem runLoop_ok {σ : Type} (C : Collabs σ) (cfgL : LogCfg) (drainFuel : Nat) :
    ∀ (fuel i : Nat) (st st2 : EngineState σ) (t : List TraceItem),
      runLoop C cfgL drainFuel fuel i st = (RunRes.ok st2, t) →
      st.queue = [] →
      st2.queue = [] ∧
      popsOf t = enqsOf t ∧
      st2.signals = st.signals + typedCount ("SIGNAL") (popsOf t) ∧
      st2.orders = st.orders + typedCount ("ORDER") (popsOf t) ∧
      st2.fills = st.fills + typedCount ("FILL") (popsOf t) ∧
      TraceItem.loggerOpen ∉ t ∧ TraceItem.loggerClose ∉ t ∧
      (∀ p q, t = p ++ TraceItem.call CollabOp.update_bars :: q → popsOf p = enqsOf p)
  | 0, i, st, st2, t, h, hq0 => by
    simp [runLoop] at h
  | fuel + 1, i, st, st2, t, h, hq0 => by
    unfold runLoop at h
    by_cases hcont : C.continue_backtest st.collab
    · rw [if_pos hcont] at h
      rcases hub : callOp CollabOp.update_bars C.update_bars st with ⟨r1, t1⟩
      rw [hub] at h
      cases r1 with
      | err m => simp at h
      | ok st1 =>
        dsimp only at h
        rcases hd : drain C cfgL (i + 1) drainFuel st1 with ⟨r2, t2⟩
        rw [hd] at h
        cases r2 with
        | err m => simp at h
        | fuelOut => simp at h
        | ok stB =>
          dsimp only at h
          rcases hr : runLoop C cfgL drainFuel fuel (i + 1) stB with ⟨r3, t3⟩
          rw [hr] at h
          dsimp only at h
          simp only [Prod.mk.injEq] at h
          obtain ⟨h1, h2⟩ := h
          cases r3 with
          | err m => simp at h1
          | fuelOut => simp at h1
          | ok stC =>
            simp only [RunRes.ok.injEq] at h1
            subst h1
            subst h2
            obtain ⟨hqA, hsA, hoA, hfA, hpA, hhA, hcallsA, hnoA, hncA, _⟩ :=
              callOp_ok _ _ _ _ _ hub
            obtain ⟨hqB, hfifoB, _, hsB, hoB, hfB, hnoB, hncB, hubB⟩ :=
              drain_ok C cfgL (i + 1) drainFuel st1 stB t2 hd
            obtain ⟨hqC, hfifoC, hsC, hoC, hfC, hnoC, hncC, hdecC⟩ :=
              runLoop_ok C cfgL drainFuel fuel (i + 1) stB stC t3 hr hqB
            obtain ⟨l1, hshape⟩ := callOp_shape _ _ _ _ _ hub
            have hq1 : st1.queue = enqsOf t1 := by rw [hqA, hq0]; rfl
            have hpops : popsOf (TraceItem.progress :: (t1 ++ t2 ++ t3)) =
                popsOf t2 ++ popsOf t3 := by
              rw [popsOf_cons_progress]
              simp [popsOf_append, hpA]
            have henqs : enqsOf (TraceItem.progress :: (t1 ++ t2 ++ t3)) =
                enqsOf t1 ++ enqsOf t2 ++ enqsOf t3 := by
              rw [enqsOf_cons_progress]
              simp [enqsOf_append]
            refine ⟨hqC, ?_, ?_, ?_, ?_, ?_, ?_, ?_⟩
            · rw [hpops, henqs, hfifoB, hq1, hfifoC]
            · rw [hpops, typedCount_append, hsC, hsB, hsA]
              omega
            · rw [hpops, typedCount_append, hoC, hoB, hoA]
              omega
            · rw [hpops, typedCount_append, hfC, hfB, hfA]
              omega
            · intro hm
              rcases List.mem_cons.mp hm with hc | hc
              · cases hc
              rcases List.mem_append.mp hc with hc2 | hc2
              · rcases List.mem_append.mp hc2 with hc3 | hc3
                exacts [hnoA hc3, hnoB hc3]
              · exact hnoC hc2
            · intro hm
              rcases List.mem_cons.mp hm with hc | hc
              · cases hc
              rcases List.mem_append.mp hc with hc2 | hc2
              · rcases List.mem_append.mp hc2 with hc3 | hc3
                exacts [hncA hc3, hncB hc3]
              · exact hncC hc2
            · intro p q hdec
              cases p with
              | nil =>
                simp only [List.nil_append, List.cons.injEq] at hdec
                exact absurd hdec.1.symm (by simp)
              | cons y p1 =>
                simp only [List.cons_append, List.cons.injEq] at hdec
                obtain ⟨hy, hdec1⟩ := hdec
                subst hy
                rw [hshape] at hdec1
                cases p1 with
                | nil =>
                  simp [popsOf, enqsOf]
                | cons z p2 =>
                  rw [List.append_assoc, List.cons_append] at hdec1
                  have hz := (List.cons.injEq _ _ _ _).mp hdec1
                  obtain ⟨hz1, hdec2⟩ := hz
                  subst hz1
                  have hnaes : TraceItem.call CollabOp.update_bars ∉
                      List.map TraceItem.enq l1 ++ t2 := by
                    intro hm
                    rcases List.mem_append.mp hm with hc | hc
                    · exact not_mem_map_enq _ _ (fun e he => TraceItem.noConfusion he) hc
                    · exact hubB hc
                  obtain ⟨p3, hp3, ht3⟩ := split_around (TraceItem.call CollabOp.update_bars)
                    (List.map TraceItem.enq l1 ++ t2) t3 p2 q (by rw [List.append_assoc]; exact hdec2)
                    hnaes
                  have hIH := hdecC p3 q ht3
                  subst hp3
                  rw [popsOf_cons_progress, popsOf_cons_call, enqsOf_cons_progress,
                    enqsOf_cons_call]
                  simp only [popsOf_append, enqsOf_append, popsOf_map_enq, enqsOf_map_enq]
                  rw [hIH]
                  have : popsOf t2 = l1 ++ enqsOf t2 := by
                    rw [hfifoB, hq1, hshape, enqsOf_cons_call, enqsOf_map_enq]
                  rw [this]
                  simp
    · rw [if_neg hcont] at h
      simp only [Prod.mk.injEq, RunRes.ok.injEq] at h
      obtain ⟨h1, h2⟩ := h
      subst h1
      subst h2
      refine ⟨hq0, by simp [popsOf, enqsOf], by simp [typedCount, popsOf],
        by simp [typedCount, popsOf], by simp [typedCount, popsOf], by simp, by simp, ?_⟩
      intro p q hdec
      have hmem : TraceItem.call CollabOp.update_bars ∈ ([TraceItem.progress] : List TraceItem) :=
        hdec ▸ List.mem_append_right p (List.mem_cons_self _ _)
      simp at hmem

theorem no_open_call_enq (op : CollabOp) (l : List (Option Event)) :
    TraceItem.loggerOpen ∉ TraceItem.call op :: l.map TraceItem.enq := by
  intro hm
  rcases List.mem_cons.mp hm with hc | hc
  · cases hc
  · exact not_mem_map_enq _ _ (fun e he => TraceItem.noConfusion he) hc

theorem no_close_call_enq (op : CollabOp) (l : List (Option Event)) :
    TraceItem.loggerClose ∉ TraceItem.call op :: l.map TraceItem.enq := by
  intro hm
  rcases List.mem_cons.mp hm with hc | hc
  · cases hc
  · exact not_mem_map_enq _ _ (fun e he => TraceItem.noConfusion he) hc

theorem routeEvent_no_logctl {σ : Type} (C : Collabs σ) (st : EngineState σ)
    (e : Option Event) (r : EngRes σ) (t : List TraceItem)
    (h : routeEvent C st e = (r, t)) :
    TraceItem.loggerOpen ∉ t ∧ TraceItem.loggerClose ∉ t := by
  cases e with
  | none =>
    have ht : t = [] := (congrArg Prod.snd h).symm
    subst ht
    simp
  | some ev =>
    unfold routeEvent at h
    dsimp only at h
    split_ifs at h
    case pos =>
      obtain ⟨l, hsh⟩ := callOp_shape _ _ _ _ _ h
      exact hsh ▸ ⟨no_open_call_enq _ l, no_close_call_enq _ l⟩
    case pos =>
      rcases hc1 : callOp CollabOp.calculate_signals (fun c => C.calculate_signals c ev) st
        with ⟨r1, t1⟩
      obtain ⟨l1, hsh1⟩ := callOp_shape _ _ _ _ _ hc1
      rw [hc1] at h
      cases r1 with
      | err m =>
        simp only [andThenE] at h
        have ht : t = t1 := (congrArg Prod.snd h).symm
        subst ht
        exact hsh1 ▸ ⟨no_open_call_enq _ l1, no_close_call_enq _ l1⟩
      | ok stA =>
        simp only [andThenE] at h
        rcases hc2 : callOp CollabOp.update_stop_and_limit_orders
          (fun c => C.update_stop_and_limit_orders c ev) stA with ⟨r2, t2⟩
        obtain ⟨l2, hsh2⟩ := callOp_shape _ _ _ _ _ hc2
        rw [hc2] at h
        cases r2 with
        | err m =>
          dsimp only at h
          have ht : t = t1 ++ t2 := (congrArg Prod.snd h).symm
          subst ht
          constructor <;> intro hm <;> rcases List.mem_append.mp hm with hc | hc
          · exact no_open_call_enq _ l1 (hsh1 ▸ hc)
          · exact no_open_call_enq _ l2 (hsh2 ▸ hc)
          · exact no_close_call_enq _ l1 (hsh1 ▸ hc)
          · exact no_close_call_enq _ l2 (hsh2 ▸ hc)
        | ok stB =>
          dsimp only at h
          rcases hc3 : callOp CollabOp.update_timeindex
            (fun c => C.update_timeindex c ev) stB with ⟨r3, t3⟩
          obtain ⟨l3, hsh3⟩ := callOp_shape _ _ _ _ _ hc3
          rw [hc3] at h
          have ht : t = t1 ++ (t2 ++ t3) := by
            have := (congrArg Prod.snd h).symm
            simpa [List.append_assoc] using this
          subst ht
          constructor <;> intro hm <;> rcases List.mem_append.mp hm with hc | hc
          · exact no_open_call_enq _ l1 (hsh1 ▸ hc)
          · rcases List.mem_append.mp hc with hc2 | hc2
            · exact no_open_call_enq _ l2 (hsh2 ▸ hc2)
            · exact no_open_call_enq _ l3 (hsh3 ▸ hc2)
          · exact no_close_call_enq _ l1 (hsh1 ▸ hc)
          · rcases List.mem_append.mp hc with hc2 | hc2
            · exact no_close_call_enq _ l2 (hsh2 ▸ hc2)
            · exact no_close_call_enq _ l3 (hsh3 ▸ hc2)
    case pos =>
      obtain ⟨l, hsh⟩ := callOp_shape _ _ _ _ _ h
      exact hsh ▸ ⟨no_open_call_enq _ l, no_close_call_enq _ l⟩
    case pos =>
      obtain ⟨l, hsh⟩ := callOp_shape _ _ _ _ _ h
      exact hsh ▸ ⟨no_open_call_enq _ l, no_close_call_enq _ l⟩
    case pos =>
      obtain ⟨l, hsh⟩ := callOp_shape _ _ _ _ _ h
      exact hsh ▸ ⟨no_open_call_enq _ l, no_close_call_enq _ l⟩
    case neg =>
      have ht : t = [] := (congrArg Prod.snd h).symm
      subst ht
      simp

theorem drain_no_logctl {σ : Type} (C : Collabs σ) (cfgL : LogCfg) (iteration : Nat) :
    ∀ (fuel : Nat) (st : EngineState σ) (r : RunRes σ) (t : List TraceItem),
      drain C cfgL iteration fuel st = (r, t) →
      TraceItem.loggerOpen ∉ t ∧ TraceItem.loggerClose ∉ t
  | 0, st, r, t, h => by
    have ht : t = [] := (congrArg Prod.snd h).symm
    subst ht
    simp
  | fuel + 1, st, r, t, h => by
    unfold drain at h
    rcases hq : st.queue with _ | ⟨e, rest⟩
    · rw [hq] at h
      have ht : t = [] := (congrArg Prod.snd h).symm
      subst ht
      simp
    · rw [hq] at h
      dsimp only at h
      rcases hr : routeEvent C { st with queue := rest } e with ⟨r1, t1⟩
      rw [hr] at h
      have hro := routeEvent_no_logctl C _ e r1 t1 hr
      cases r1 with
      | err m =>
        have ht : t = TraceItem.pop e :: t1 := (congrArg Prod.snd h).symm
        subst ht
        constructor <;> intro hm <;> rcases List.mem_cons.mp hm with hc | hc
        · cases hc
        · exact hro.1 hc
        · cases hc
        · exact hro.2 hc
      | ok stA =>
        dsimp only at h
        rcases hd : drain C cfgL iteration fuel stA with ⟨r2, t2⟩
        rw [hd] at h
        have hrec := drain_no_logctl C cfgL iteration fuel stA r2 t2 hd
        have ht : t = TraceItem.pop e :: (t1 ++ log_event cfgL iteration e ++ t2) :=
          (congrArg Prod.snd h).symm
        subst ht
        constructor <;> intro hm <;> rcases List.mem_cons.mp hm with hc | hc
        · cases hc
        · rcases List.mem_append.mp hc with hc2 | hc2
          · rcases List.mem_append.mp hc2 with hc3 | hc3
            · exact hro.1 hc3
            · exact log_event_no_open cfgL iteration e hc3
          · exact hrec.1 hc2
        · cases hc
        · rcases List.mem_append.mp hc with hc2 | hc2
          · rcases List.mem_append.mp hc2 with hc3 | hc3
            · exact hro.2 hc3
            · exact log_event_no_close cfgL iteration e hc3
          · exact hrec.2 hc2

theorem runLoop_no_logctl {σ : Type} (C : Collabs σ) (cfgL : LogCfg) (drainFuel : Nat) :
    ∀ (fuel i : Nat) (st : EngineState σ) (r : RunRes σ) (t : List TraceItem),
      runLoop C cfgL drainFuel fuel i st = (r, t) →
      TraceItem.loggerOpen ∉ t ∧ TraceItem.loggerClose ∉ t
  | 0, i, st, r, t, h => by
    have ht : t = [] := (congrArg Prod.snd h).symm
    subst ht
    simp
  | fuel + 1, i, st, r, t, h => by
    unfold runLoop at h
    by_cases hcont : C.continue_backtest st.collab
    · rw [if_pos hcont] at h
      rcases hub : callOp CollabOp.update_bars C.update_bars st with ⟨r1, t1⟩
      rw [hub] at h
      obtain ⟨l1, hsh1⟩ := callOp_shape _ _ _ _ _ hub
      cases r1 with
      | err m =>
        have ht : t = TraceItem.progress :: t1 := (congrArg Prod.snd h).symm
        subst ht
        constructor <;> intro hm <;> rcases List.mem_cons.mp hm with hc | hc
        · cases hc
        · exact no_open_call_enq _ l1 (hsh1 ▸ hc)
        · cases hc
        · exact no_close_call_enq _ l1 (hsh1 ▸ hc)
      | ok st1 =>
        dsimp only at h
        rcases hd : drain C cfgL (i + 1) drainFuel st1 with ⟨r2, t2⟩
        rw [hd] at h
        have hdn := drain_no_logctl C cfgL (i + 1) drainFuel st1 r2 t2 hd
        cases r2 with
        | ok stB =>
          dsimp only at h
          rcases hr : runLoop C cfgL drainFuel fuel (i + 1) stB with ⟨r3, t3⟩
          rw [hr] at h
          have hrec := runLoop_no_logctl C cfgL drainFuel fuel (i + 1) stB r3 t3 hr
          have ht : t = TraceItem.progress :: (t1 ++ t2 ++ t3) := (congrArg Prod.snd h).symm
          subst ht
          constructor <;> intro hm <;> rcases List.mem_cons.mp hm with hc | hc
          · cases hc
          · rcases List.mem_append.mp hc with hc2 | hc2
            · rcases List.mem_append.mp hc2 with hc3 | hc3
              · exact no_open_call_enq _ l1 (hsh1 ▸ hc3)
              · exact hdn.1 hc3
            · exact hrec.1 hc2
          · cases hc
          · rcases List.mem_append.mp hc with hc2 | hc2
            · rcases List.mem_append.mp hc2 with hc3 | hc3
              · exact no_close_call_enq _ l1 (hsh1 ▸ hc3)
              · exact hdn.2 hc3
            · exact hrec.2 hc2
        | err m =>
          dsimp only at h
          have ht : t = TraceItem.progress :: (t1 ++ t2) := (congrArg Prod.snd h).symm
          subst ht
          constructor <;> intro hm <;> rcases List.mem_cons.mp hm with hc | hc
          · cases hc
          · rcases List.mem_append.mp hc with hc2 | hc2
            · exact no_open_call_enq _ l1 (hsh1 ▸ hc2)
            · exact hdn.1 hc2
          · cases hc
          · rcases List.mem_append.mp hc with hc2 | hc2
            · exact no_close_call_enq _ l1 (hsh1 ▸ hc2)
            · exact hdn.2 hc2
        | fuelOut =>
          dsimp only at h
          have ht : t = TraceItem.progress :: (t1 ++ t2) := (congrArg Prod.snd h).symm
          subst ht
          constructor <;> intro hm <;> rcases List.mem_cons.mp hm with hc | hc
          · cases hc
          · rcases List.mem_append.mp hc with hc2 | hc2
            · exact no_open_call_enq _ l1 (hsh1 ▸ hc2)
            · exact hdn.1 hc2
          · cases hc
          · rcases List.mem_append.mp hc with hc2 | hc2
            · exact no_close_call_enq _ l1 (hsh1 ▸ hc2)
            · exact hdn.2 hc2
    · rw [if_neg hcont] at h
      have ht : t = [TraceItem.progress] := (congrArg Prod.snd h).symm
      subst ht
      simp

theorem stripLog_cons_pop (e : Option Event) (t : List TraceItem) :
    stripLog (TraceItem.pop e :: t) = TraceItem.pop e :: stripLog t := by
  simp [stripLog]

theorem stripLog_cons_progress (t : List TraceItem) :
    stripLog (TraceItem.progress :: t) = TraceItem.progress :: stripLog t := by
  simp [stripLog]

theorem drain_cfg_indep {σ : Type} (C : Collabs σ) (cfg1 cfg2 : LogCfg) (iteration : Nat) :
    ∀ (fuel : Nat) (st : EngineState σ),
      (drain C cfg1 iteration fuel st).1 = (drain C cfg2 iteration fuel st).1 ∧
      stripLog (drain C cfg1 iteration fuel st).2 = stripLog (drain C cfg2 iteration fuel st).2
  | 0, st => ⟨rfl, rfl⟩
  | fuel + 1, st => by
    unfold drain
    rcases hq : st.queue with _ | ⟨e, rest⟩
    · exact ⟨rfl, rfl⟩
    · dsimp only
      rcases hr : routeEvent C { st with queue := rest } e with ⟨r1, t1⟩
      cases r1 with
      | err m => exact ⟨rfl, rfl⟩
      | ok stA =>
        dsimp only
        obtain ⟨ih1, ih2⟩ := drain_cfg_indep C cfg1 cfg2 iteration fuel stA
        refine ⟨ih1, ?_⟩
        rw [stripLog_cons_pop, stripLog_cons_pop, stripLog_append, stripLog_append,
          stripLog_append, stripLog_append, log_event_strip, log_event_strip, ih2]

theorem runLoop_cfg_indep {σ : Type} (C : Collabs σ) (cfg1 cfg2 : LogCfg) (drainFuel : Nat) :
    ∀ (fuel i : Nat) (st : EngineState σ),
      (runLoop C cfg1 drainFuel fuel i st).1 = (runLoop C cfg2 drainFuel fuel i st).1 ∧
      stripLog (runLoop C cfg1 drainFuel fuel i st).2 =
        stripLog (runLoop C cfg2 drainFuel fuel i st).2
  | 0, i, st => ⟨rfl, rfl⟩
  | fuel + 1, i, st => by
    unfold runLoop
    by_cases hcont : C.continue_backtest st.collab
    · simp only [if_pos hcont]
      rcases hub : callOp CollabOp.update_bars C.update_bars st with ⟨r1, t1⟩
      cases r1 with
      | err m => exact ⟨rfl, rfl⟩
      | ok st1 =>
        dsimp only
        obtain ⟨hd1, hd2⟩ := drain_cfg_indep C cfg1 cfg2 (i + 1) drainFuel st1
        rcases hda : drain C cfg1 (i + 1) drainFuel st1 with ⟨ra, ta⟩
        rcases hdb : drain C cfg2 (i + 1) drainFuel st1 with ⟨rb, tb⟩
        rw [hda, hdb] at hd1 hd2
        dsimp only at hd1 hd2
        subst hd1
        cases ra with
        | ok stB =>
          dsimp only
          obtain ⟨hr1, hr2⟩ := runLoop_cfg_indep C cfg1 cfg2 drainFuel fuel (i + 1) stB
          refine ⟨hr1, ?_⟩
          rw [stripLog_cons_progress, stripLog_cons_progress, stripLog_append, stripLog_append,
            stripLog_append, stripLog_append, hd2, hr2]
        | err m =>
          dsimp only
          refine ⟨rfl, ?_⟩
          rw [stripLog_cons_progress, stripLog_cons_progress, stripLog_append, stripLog_append,
            hd2]
        | fuelOut =>
          dsimp only
          refine ⟨rfl, ?_⟩
          rw [stripLog_cons_progress, stripLog_cons_progress, stripLog_append, stripLog_append,
            hd2]
    · rw [if_neg hcont, if_neg hcont]
      exact ⟨rfl, rfl⟩

/-! Claim theorems: strategy -/

/-- C1, counterexample: with short window 3 and long window 5, an instrument
whose history has only 4 closing prices (fewer than long_window) is NOT
skipped: the evaluation emits a LONG signal and moves the label, because the
source only skips when the pulled price list is empty. -/
theorem mac_short_history_emits_signal :
    ([(10 : ℚ), 10, 10, 20].length < macCfg35.long_window) ∧
    calc_signal_symbol macCfg35 ("EURUSD") 0 [10, 10, 10, 20] Label.OUT =
      (Label.LONG,
        some { strategy_id := 1, symbol := "EURUSD", sig_dir := Dir.LONG, strength := 1,
               stop_loss := none, take_profit := none }) := by
  constructor
  · decide
  · decide

/-- C1, amended: an instrument is skipped (no signal, no transition of the
crossover table) exactly when its available closing-price history is empty;
even then the flat-position resynchronization still applies to the label.
With a nonempty history shorter than long_window the averages are computed
over the available observations. -/
theorem mac_evaluate_skip_empty_history (cfg : MacConfig) (s : String) (pos : ℚ)
    (lbl : Label) :
    calc_signal_symbol cfg s pos [] lbl = (resyncLabel pos lbl, none) := by
  simp only [calc_signal_symbol, get_latest_bars_values, takeLast]
  simp

/-- C2: with sufficient (nonempty pulled) history the label and emitted
signal follow exactly the transition table over the resynchronized label,
with strict inequalities: OUT goes LONG on short over long, OUT goes SHORT
on short under long, LONG exits on short under long, SHORT exits on short
over long, equality and all remaining cases change nothing and emit
nothing; and a run from OUT whose comparisons read above, not-below for a
while, then below, emits exactly a LONG then an EXIT signal. -/
theorem mac_transition_table_and_sequence :
    (∀ (cfg : MacConfig) (s : String) (pos : ℚ) (history : List ℚ) (lbl : Label),
      (smaGT cfg history → resyncLabel pos lbl = Label.OUT →
        calc_signal_symbol cfg s pos history lbl =
          (Label.LONG, some (entrySignal cfg s (get_latest_bar_value history) Dir.LONG))) ∧
      (smaLT cfg history → resyncLabel pos lbl = Label.OUT →
        calc_signal_symbol cfg s pos history lbl =
          (Label.SHORT, some (entrySignal cfg s (get_latest_bar_value history) Dir.SHORT))) ∧
      (smaLT cfg history → resyncLabel pos lbl = Label.LONG →
        calc_signal_symbol cfg s pos history lbl = (Label.OUT, some (exitSignal s))) ∧
      (smaGT cfg history → resyncLabel pos lbl = Label.SHORT →
        calc_signal_symbol cfg s pos history lbl = (Label.OUT, some (exitSignal s))) ∧
      (get_latest_bars_values history cfg.long_window ≠ [] →
        sma (takeLast (get_latest_bars_values history cfg.long_window) cfg.short_window) =
          sma (takeLast (get_latest_bars_values history cfg.long_window) cfg.long_window) →
        calc_signal_symbol cfg s pos history lbl = (resyncLabel pos lbl, none)) ∧
      (smaGT cfg history → resyncLabel pos lbl = Label.LONG →
        calc_signal_symbol cfg s pos history lbl = (Label.LONG, none)) ∧
      (smaLT cfg history → resyncLabel pos lbl = Label.SHORT →
        calc_signal_symbol cfg s pos history lbl = (Label.SHORT, none))) ∧
    (∀ (cfg : MacConfig) (s : String) (first lastT : ℚ × List ℚ)
      (mids : List (ℚ × List ℚ)),
      smaGT cfg first.2 →
      (∀ m ∈ mids, m.1 ≠ 0 ∧ ¬ smaLT cfg m.2) →
      lastT.1 ≠ 0 → smaLT cfg lastT.2 →
      ((runSymbolTicks cfg s (first :: (mids ++ [lastT])) Label.OUT).2).map
        SignalEvent.sig_dir = [Dir.LONG, Dir.EXIT]) := by
  constructor
  · intro cfg s pos history lbl
    refine ⟨fun hgt hout => step_entry_long cfg s pos history lbl hgt hout,
      fun hlt hout => step_entry_short cfg s pos history lbl hlt hout,
      fun hlt hl => step_exit_long cfg s pos history lbl hl hlt,
      fun hgt hl => step_exit_short cfg s pos history lbl hl hgt,
      fun hne heq => step_hold_eq cfg s pos history lbl hne heq,
      fun hgt hl => ?_,
      fun hlt hl => ?_⟩
    · have := step_hold_long cfg s pos history lbl hl (fun hlt => lt_asymm hgt.2 hlt.2)
      exact this
    · have := step_hold_short cfg s pos history lbl hl (fun hgt => lt_asymm hlt.2 hgt.2)
      exact this
  · intro cfg s first lastT mids h1 hm hl1 hl2
    exact runSymbolTicks_entry_exit cfg s first lastT mids h1 hm hl1 hl2

/-- C2, witness: the §8 price scenario with windows 3 and 5: rising prices
trigger the LONG entry, a middle tick holds, falling prices trigger the
EXIT; and the entry row of the table evaluated at the rising history. -/
theorem mac_transition_table_and_sequence_witness :
    ((runSymbolTicks macCfg35 ("EURUSD")
      [(0, [10, 10, 10, 10, 11, 12, 13]),
       (1, [10, 10, 10, 10, 11, 12, 13, 13]),
       (1, [10, 10, 10, 10, 11, 12, 13, 13, 9, 8, 7])] Label.OUT).2).map
      SignalEvent.sig_dir = [Dir.LONG, Dir.EXIT] := by
  have h := mac_transition_table_and_sequence.2 macCfg35 ("EURUSD")
    (0, [10, 10, 10, 10, 11, 12, 13])
    (1, [10, 10, 10, 10, 11, 12, 13, 13, 9, 8, 7])
    [(1, [10, 10, 10, 10, 11, 12, 13, 13])]
    (by decide)
    (by
      intro m hm
      simp only [List.mem_singleton] at hm
      subst hm
      exact ⟨by decide, by decide⟩)
    (by decide) (by decide)
  simpa using h

/-- C5: one evaluation of the strategy emits at most one signal per tracked
instrument: with a duplicate-free symbol list, the signals collected by
calculate_signals contain at most one event for any given symbol. -/
theorem mac_at_most_one_signal_per_symbol (cfg : MacConfig) (etype : String)
    (positions : String → ℚ) (histories : String → List ℚ)
    (symbol_list : List String) (bought : String → Label) (s : String)
    (hnd : symbol_list.Nodup) :
    ((calculate_signals cfg etype positions histories symbol_list bought).2.countP
      (fun e => e.symbol == s)) ≤ 1 := by
  unfold calculate_signals
  split
  · exact calc_signals_list_countP_le cfg positions histories s symbol_list bought hnd
  · simp

/-- C5, witness: a concrete two-symbol MARKET evaluation whose history
triggers a signal for both symbols still has at most one signal per symbol. -/
theorem mac_at_most_one_signal_per_symbol_witness :
    ((calculate_signals macCfg35 ("MARKET") (fun _ => 0)
      (fun _ => [10, 10, 10, 20]) ["EURUSD", "GBPUSD"] calculate_initial_bought).2.countP
      (fun e => e.symbol == "EURUSD")) ≤ 1 :=
  mac_at_most_one_signal_per_symbol macCfg35 ("MARKET") (fun _ => 0)
    (fun _ => [10, 10, 10, 20]) ["EURUSD", "GBPUSD"] calculate_initial_bought
    ("EURUSD") (by decide)

/-- C7: when the portfolio reports a flat (zero) net position the label is
reset to OUT before the table is consulted: the reset is idempotent and the
whole evaluation is independent of whatever stale label was cached. -/
theorem mac_flat_position_resync (cfg : MacConfig) (s : String) (pos : ℚ)
    (history : List ℚ) (lblA lblB : Label) (hpos : pos = 0) :
    resyncLabel pos lblA = Label.OUT ∧
    resyncLabel pos (resyncLabel pos lblA) = resyncLabel pos lblA ∧
    calc_signal_symbol cfg s pos history lblA = calc_signal_symbol cfg s pos history lblB := by
  subst hpos
  refine ⟨if_pos rfl, ?_, ?_⟩
  · simp [resyncLabel]
  · simp [calc_signal_symbol, resyncLabel]

/-- C7, witness: a flat position with a stale LONG label behaves exactly as
with a stale SHORT label on a concrete history, and the reset itself
evaluates to OUT. -/
theorem mac_flat_position_resync_witness :
    resyncLabel 0 Label.LONG = Label.OUT ∧
    resyncLabel 0 (resyncLabel 0 Label.LONG) = resyncLabel 0 Label.LONG ∧
    calc_signal_symbol macCfg35 ("EURUSD") 0 [10, 10, 10, 20] Label.LONG =
      calc_signal_symbol macCfg35 ("EURUSD") 0 [10, 10, 10, 20] Label.SHORT :=
  mac_flat_position_resync macCfg35 ("EURUSD") 0 [10, 10, 10, 20] Label.LONG Label.SHORT rfl

/-! Claim theorems: dispatch loop -/

/-- C3: a MARKET event popped from the queue drives exactly three
collaborator operations, always all three and in this fixed order: the
strategy signal evaluation, the execution venue update of resting stop and
limit orders, and the portfolio clock advance. -/
theorem backtest_market_routing {σ : Type} (C : Collabs σ) (st st2 : EngineState σ)
    (ev : Event) (t : List TraceItem) (hty : ev.type = "MARKET")
    (h : routeEvent C st (some ev) = (EngRes.ok st2, t)) :
    callsOf t = [CollabOp.calculate_signals, CollabOp.update_stop_and_limit_orders,
      CollabOp.update_timeindex] := by
  unfold routeEvent at h
  dsimp only at h
  rw [if_neg (by rw [hty]; decide), if_pos hty] at h
  rcases hc1 : callOp CollabOp.calculate_signals (fun c => C.calculate_signals c ev) st
    with ⟨r1, t1⟩
  rw [hc1] at h
  cases r1 with
  | err m => simp [andThenE] at h
  | ok stA =>
    simp only [andThenE] at h
    rcases hc2 : callOp CollabOp.update_stop_and_limit_orders
      (fun c => C.update_stop_and_limit_orders c ev) stA with ⟨r2, t2⟩
    rw [hc2] at h
    cases r2 with
    | err m => simp at h
    | ok stB =>
      dsimp only at h
      rcases hc3 : callOp CollabOp.update_timeindex (fun c => C.update_timeindex c ev) stB
        with ⟨r3, t3⟩
      rw [hc3] at h
      cases r3 with
      | err m => simp at h
      | ok stC =>
        have ht : t = t1 ++ t2 ++ t3 := by
          have := (congrArg Prod.snd h).symm
          simpa using this
        subst ht
        obtain ⟨_, _, _, _, _, _, hcl1, _⟩ := callOp_ok _ _ _ _ _ hc1
        obtain ⟨_, _, _, _, _, _, hcl2, _⟩ := callOp_ok _ _ _ _ _ hc2
        obtain ⟨_, _, _, _, _, _, hcl3, _⟩ := callOp_ok _ _ _ _ _ hc3
        rw [callsOf_append, callsOf_append, hcl1, hcl2, hcl3]
        rfl

/-- C3, witness: routing one concrete MARKET event through trivial
collaborators calls exactly the three operations in order. -/
theorem backtest_market_routing_witness :
    callsOf [TraceItem.call CollabOp.calculate_signals,
      TraceItem.call CollabOp.update_stop_and_limit_orders,
      TraceItem.call CollabOp.update_timeindex] =
      [CollabOp.calculate_signals, CollabOp.update_stop_and_limit_orders,
        CollabOp.update_timeindex] :=
  backtest_market_routing trivCollabs st0unit st0unit { type := "MARKET", payload := 0 }
    [TraceItem.call CollabOp.calculate_signals,
      TraceItem.call CollabOp.update_stop_and_limit_orders,
      TraceItem.call CollabOp.update_timeindex] rfl rfl

/-- C4: a completed drain empties the queue, and the popped entries are
exactly the entries that were in the queue followed by the entries enqueued
while draining, in FIFO order; across a completed run started on an empty
queue, everything enqueued is popped, and at every data-source advance every
entry enqueued so far has already been popped. -/
theorem backtest_exhaustive_fifo_drain {σ : Type} (C : Collabs σ) (cfgL : LogCfg) :
    (∀ (iteration fuel : Nat) (st st2 : EngineState σ) (t : List TraceItem),
      drain C cfgL iteration fuel st = (RunRes.ok st2, t) →
      st2.queue = [] ∧ popsOf t = st.queue ++ enqsOf t) ∧
    (∀ (drainFuel fuel i : Nat) (st st2 : EngineState σ) (t : List TraceItem),
      runLoop C cfgL drainFuel fuel i st = (RunRes.ok st2, t) → st.queue = [] →
      popsOf t = enqsOf t ∧
      (∀ p q, t = p ++ TraceItem.call CollabOp.update_bars :: q → popsOf p = enqsOf p)) := by
  constructor
  · intro iteration fuel st st2 t h
    obtain ⟨h1, h2, _⟩ := drain_ok C cfgL iteration fuel st st2 t h
    exact ⟨h1, h2⟩
  · intro drainFuel fuel i st st2 t h hq
    obtain ⟨_, h2, _, _, _, _, _, hdec⟩ := runLoop_ok C cfgL drainFuel fuel i st st2 t h hq
    exact ⟨h2, hdec⟩

/-- C4, witness: a trivial drain from an empty queue, and a two-tick run
whose first tick enqueues a MARKET event that cascades a SIGNAL, an ORDER
and a FILL; the prefix before the advance call satisfies the FIFO balance. -/
theorem backtest_exhaustive_fifo_drain_witness :
    (st0unit.queue = [] ∧ popsOf [] = st0unit.queue ++ enqsOf []) ∧
    popsOf [TraceItem.progress] = enqsOf [TraceItem.progress] := by
  constructor
  · exact (backtest_exhaustive_fifo_drain trivCollabs noLog).1 1 1 st0unit st0unit [] rfl
  · have h := (backtest_exhaustive_fifo_drain cascadeCollabs noLog).2 10 2 0
      { queue := [], collab := true, signals := 0, orders := 0, fills := 0 } _ _ rfl rfl
    exact h.2 [TraceItem.progress] _ rfl

/-- C6: on a completed run the three counters, which start at zero, equal
exactly the number of SIGNAL, ORDER and FILL events popped and routed during
the run. -/
theorem backtest_run_counters {σ : Type} (C : Collabs σ) (cfgL : LogCfg)
    (tickFuel drainFuel : Nat) (s0 : σ) (st : EngineState σ) (t : List TraceItem)
    (h : run_backtest C cfgL tickFuel drainFuel s0 = (RunRes.ok st, t)) :
    st.signals = typedCount ("SIGNAL") (popsOf t) ∧
    st.orders = typedCount ("ORDER") (popsOf t) ∧
    st.fills = typedCount ("FILL") (popsOf t) := by
  unfold run_backtest at h
  dsimp only at h
  rcases hr : runLoop C cfgL drainFuel tickFuel 0
    { queue := [], collab := s0, signals := 0, orders := 0, fills := 0 } with ⟨r1, t1⟩
  rw [hr] at h
  cases r1 with
  | err m => simp at h
  | fuelOut => simp at h
  | ok stX =>
    dsimp only at h
    simp only [Prod.mk.injEq, RunRes.ok.injEq] at h
    obtain ⟨h1, h2⟩ := h
    subst h1
    subst h2
    obtain ⟨_, _, hsig, hord, hfill, _⟩ :=
      runLoop_ok C cfgL drainFuel tickFuel 0 _ _ t1 hr rfl
    have hop : popsOf (if cfgL.hasLogger then [TraceItem.loggerOpen] else []) = [] := by
      by_cases hb : cfgL.hasLogger <;> simp [hb, popsOf]
    have hcl : popsOf (if cfgL.hasLogger then [TraceItem.loggerClose] else []) = [] := by
      by_cases hb : cfgL.hasLogger <;> simp [hb, popsOf]
    have hpt : popsOf ((if cfgL.hasLogger then [TraceItem.loggerOpen] else []) ++
        TraceItem.progress :: t1 ++
        (if cfgL.hasLogger then [TraceItem.loggerClose] else [])) = popsOf t1 := by
      simp [popsOf_append, popsOf_cons_progress, hop, hcl]
    rw [hpt]
    refine ⟨?_, ?_, ?_⟩
    · simpa using hsig
    · simpa using hord
    · simpa using hfill

/-- C6, witness: the counters of a completed trivial run equal the (zero)
counts of SIGNAL, ORDER and FILL pops in its trace. -/
theorem backtest_run_counters_witness :
    st0unit.signals = typedCount ("SIGNAL") (popsOf [TraceItem.loggerOpen, TraceItem.progress,
      TraceItem.progress, TraceItem.loggerClose]) ∧
    st0unit.orders = typedCount ("ORDER") (popsOf [TraceItem.loggerOpen, TraceItem.progress,
      TraceItem.progress, TraceItem.loggerClose]) ∧
    st0unit.fills = typedCount ("FILL") (popsOf [TraceItem.loggerOpen, TraceItem.progress,
      TraceItem.progress, TraceItem.loggerClose]) :=
  backtest_run_counters trivCollabs logAll 1 1 () st0unit
    [TraceItem.loggerOpen, TraceItem.progress, TraceItem.progress, TraceItem.loggerClose] rfl

/-- C8, counterexample: a run whose data source raises on the first advance
propagates the failure to the caller but never invokes the logger close: the
source has no try/finally, so close is skipped on the failing exit path,
contradicting the claim that close runs on every exit path. -/
theorem backtest_logger_close_counterexample :
    (run_backtest failCollabs logAll 3 3 ()).1 = RunRes.err ("portfolio failure") ∧
    TraceItem.loggerOpen ∈ (run_backtest failCollabs logAll 3 3 ()).2 ∧
    TraceItem.loggerClose ∉ (run_backtest failCollabs logAll 3 3 ()).2 := by
  refine ⟨?_, ?_, ?_⟩ <;> decide

/-- C8, amended: when a logger is present the run opens it and closes it on
the normal exit path (data-source exhaustion with no collaborator failure);
a collaborator failure in the advance propagates to the caller as the run
error, and on that failing path the logger is opened but never closed. -/
theorem backtest_logger_close_paths {σ : Type} (C : Collabs σ) (cfgL : LogCfg)
    (tickFuel drainFuel : Nat) (s0 : σ) :
    (∀ (st : EngineState σ) (t : List TraceItem),
      run_backtest C cfgL tickFuel drainFuel s0 = (RunRes.ok st, t) → cfgL.hasLogger = true →
      TraceItem.loggerOpen ∈ t ∧ TraceItem.loggerClose ∈ t) ∧
    (∀ (m : String) (t : List TraceItem),
      run_backtest C cfgL tickFuel drainFuel s0 = (RunRes.err m, t) →
      TraceItem.loggerClose ∉ t ∧ (cfgL.hasLogger = true → TraceItem.loggerOpen ∈ t)) ∧
    (∀ m : String, C.continue_backtest s0 = true → C.update_bars s0 = Except.error m →
      (run_backtest C cfgL (tickFuel + 1) drainFuel s0).1 = RunRes.err m) := by
  refine ⟨?_, ?_, ?_⟩
  · intro st t h hb
    unfold run_backtest at h
    dsimp only at h
    rcases hr : runLoop C cfgL drainFuel tickFuel 0
      { queue := [], collab := s0, signals := 0, orders := 0, fills := 0 } with ⟨r1, t1⟩
    rw [hr] at h
    cases r1 with
    | err m => simp at h
    | fuelOut => simp at h
    | ok stX =>
      dsimp only at h
      simp only [Prod.mk.injEq, RunRes.ok.injEq] at h
      obtain ⟨h1, h2⟩ := h
      subst h2
      simp [hb]
  · intro m t h
    unfold run_backtest at h
    dsimp only at h
    rcases hr : runLoop C cfgL drainFuel tickFuel 0
      { queue := [], collab := s0, signals := 0, orders := 0, fills := 0 } with ⟨r1, t1⟩
    rw [hr] at h
    have hnl := runLoop_no_logctl C cfgL drainFuel tickFuel 0 _ r1 t1 hr
    cases r1 with
    | ok stX => simp at h
    | fuelOut => simp at h
    | err m2 =>
      dsimp only at h
      simp only [Prod.mk.injEq, RunRes.err.injEq] at h
      obtain ⟨h1, h2⟩ := h
      subst h2
      constructor
      · intro hm
        rcases List.mem_append.mp hm with hc | hc
        · by_cases hg : cfgL.hasLogger
          · rw [if_pos hg] at hc
            simp at hc
          · rw [if_neg hg] at hc
            simp at hc
        · rcases List.mem_cons.mp hc with hc2 | hc2
          · cases hc2
          · exact hnl.2 hc2
      · intro hb
        simp [hb]
  · intro m hcont hub
    unfold run_backtest runLoop
    dsimp only
    rw [if_pos hcont]
    unfold callOp
    dsimp only
    rw [hub]

/-- C8, witness: the trivial run with a logger opens and closes it, and the
failing data source propagates its error as the run result. -/
theorem backtest_logger_close_paths_witness :
    (TraceItem.loggerOpen ∈ ([TraceItem.loggerOpen, TraceItem.progress, TraceItem.progress,
      TraceItem.loggerClose] : List TraceItem) ∧
      TraceItem.loggerClose ∈ ([TraceItem.loggerOpen, TraceItem.progress, TraceItem.progress,
        TraceItem.loggerClose] : List TraceItem)) ∧
    (run_backtest failCollabs logAll (0 + 1) 1 ()).1 = RunRes.err ("portfolio failure") := by
  constructor
  · exact (backtest_logger_close_paths trivCollabs logAll 1 1 ()).1 st0unit
      [TraceItem.loggerOpen, TraceItem.progress, TraceItem.progress, TraceItem.loggerClose]
      rfl rfl
  · exact (backtest_logger_close_paths failCollabs logAll 0 1 ()).2.2 ("portfolio failure") rfl rfl

/-- C9: an empty queue ends the drain normally; an event of unrecognized
kind routes to no collaborator, bumps no counter and leaves the state
untouched; a popped None sentinel routes to nothing; and every popped entry,
None included, is passed to the log_event hook after routing, in pop order. -/
theorem backtest_drain_edge_cases {σ : Type} (C : Collabs σ) (cfgL : LogCfg) (iteration : Nat) :
    (∀ (fuel : Nat) (st : EngineState σ), st.queue = [] →
      drain C cfgL iteration (fuel + 1) st = (RunRes.ok st, [])) ∧
    (∀ (st : EngineState σ) (ev : Event),
      ev.type ∉ (["CLOSE_PENDING_ORDERS", "MARKET", "SIGNAL", "ORDER", "FILL"] : List String) →
      routeEvent C st (some ev) = (EngRes.ok st, [])) ∧
    (∀ st : EngineState σ, routeEvent C st none = (EngRes.ok st, [])) ∧
    (∀ (fuel : Nat) (st st2 : EngineState σ) (t : List TraceItem),
      drain C cfgL iteration fuel st = (RunRes.ok st2, t) →
      hooksOf t = (popsOf t).map (fun e => (iteration, e))) := by
  refine ⟨?_, ?_, ?_, ?_⟩
  · intro fuel st hq
    unfold drain
    rw [hq]
  · intro st ev hmem
    simp only [List.mem_cons, List.not_mem_nil, or_false, not_or] at hmem
    obtain ⟨h1, h2, h3, h4, h5⟩ := hmem
    unfold routeEvent
    dsimp only
    rw [if_neg h1, if_neg h2, if_neg h3, if_neg h4, if_neg h5]
  · intro st
    rfl
  · intro fuel st st2 t h
    exact (drain_ok C cfgL iteration fuel st st2 t h).2.2.1

/-- C9, witness: the concrete edge cases — an empty-queue drain, an
unrecognized HEARTBEAT event, a None sentinel, and the hook trace of a
one-entry drain. -/
theorem backtest_drain_edge_cases_witness :
    drain trivCollabs noLog 1 1 st0unit = (RunRes.ok st0unit, []) ∧
    routeEvent trivCollabs st0unit (some { type := "HEARTBEAT", payload := 0 }) =
      (EngRes.ok st0unit, []) ∧
    routeEvent trivCollabs st0unit none = (EngRes.ok st0unit, []) ∧
    hooksOf [TraceItem.pop (some { type := "HEARTBEAT", payload := 0 }),
        TraceItem.logHook 1 (some { type := "HEARTBEAT", payload := 0 })] =
      (popsOf [TraceItem.pop (some { type := "HEARTBEAT", payload := 0 }),
        TraceItem.logHook 1 (some { type := "HEARTBEAT", payload := 0 })]).map
        (fun e => (1, e)) := by
  refine ⟨?_, ?_, ?_, ?_⟩
  · exact (backtest_drain_edge_cases trivCollabs noLog 1).1 0 st0unit rfl
  · exact (backtest_drain_edge_cases trivCollabs noLog 1).2.1 st0unit
      { type := "HEARTBEAT", payload := 0 } (by decide)
  · exact (backtest_drain_edge_cases trivCollabs noLog 1).2.2.1 st0unit
  · exact (backtest_drain_edge_cases trivCollabs noLog 1).2.2.2 2
      { queue := [some { type := "HEARTBEAT", payload := 0 }], collab := (), signals := 0,
        orders := 0, fills := 0 } st0unit _ rfl

/-- C10: logging never influences dispatch: two runs over the same
collaborators that differ only in logger presence and enabled categories
return the same result (same counters, queue and collaborator state, or the
same propagated error) and produce the same trace up to the logger-written
lines and the open/close markers. -/
theorem backtest_logging_noninterference {σ : Type} (C : Collabs σ) (cfg1 cfg2 : LogCfg)
    (tickFuel drainFuel : Nat) (s0 : σ) :
    (run_backtest C cfg1 tickFuel drainFuel s0).1 = (run_backtest C cfg2 tickFuel drainFuel s0).1 ∧
    stripLog (run_backtest C cfg1 tickFuel drainFuel s0).2 =
      stripLog (run_backtest C cfg2 tickFuel drainFuel s0).2 := by
  obtain ⟨h1, h2⟩ := runLoop_cfg_indep C cfg1 cfg2 drainFuel tickFuel 0
    { queue := [], collab := s0, signals := 0, orders := 0, fills := 0 }
  unfold run_backtest
  dsimp only
  rcases ha : runLoop C cfg1 drainFuel tickFuel 0
    { queue := [], collab := s0, signals := 0, orders := 0, fills := 0 } with ⟨ra, ta⟩
  rcases hb : runLoop C cfg2 drainFuel tickFuel 0
    { queue := [], collab := s0, signals := 0, orders := 0, fills := 0 } with ⟨rb, tb⟩
  rw [ha, hb] at h1 h2
  dsimp only at h1 h2
  subst h1
  have sa : ∀ cfg : LogCfg, stripLog (if cfg.hasLogger then [TraceItem.loggerOpen] else []) = [] := by
    intro cfg
    by_cases hg : cfg.hasLogger <;> simp [hg, stripLog]
  have sc : ∀ cfg : LogCfg, stripLog (if cfg.hasLogger then [TraceItem.loggerClose] else []) = [] := by
    intro cfg
    by_cases hg : cfg.hasLogger <;> simp [hg, stripLog]
  cases ra with
  | ok stX =>
    dsimp only
    refine ⟨rfl, ?_⟩
    simp [stripLog_append, stripLog_cons_progress, sa cfg1, sa cfg2, sc cfg1, sc cfg2, h2]
  | err m =>
    dsimp only
    refine ⟨rfl, ?_⟩
    simp [stripLog_append, stripLog_cons_progress, sa cfg1, sa cfg2, h2]
  | fuelOut =>
    dsimp only
    refine ⟨rfl, ?_⟩
    simp [stripLog_append, stripLog_cons_progress, sa cfg1, sa cfg2, h2]

end TradingPlatform
